import Mathlib

/-!
Verification of the household-ledger data engine
(`src/config.py`, `src/utils/date_utils.py`, `src/models/data_manager.py`,
`src/ui/main_window.py`, `src/ui/transaction_dialog.py`).

Modelling conventions:
* Python integers are modelled as `Int` (Python `%` with a positive divisor
  agrees with `Int.emod`); day numbers inside file shards and payloads are
  also `Int`.
* Python strings are modelled as `List Char` where character-level
  processing matters (`format_currency` / `parse_amount`), and as `String`
  for opaque row fields.
* Python dicts are modelled as association lists in insertion order:
  assignment replaces the first (unique) binding in place or appends,
  deletion removes the binding.  In every reachable state keys are unique,
  so removing all bindings of a key coincides with Python `del`.
* The store `self.data` is keyed by the canonical string
  `"{year}-{month}-{day}-{col}"`; this encoding is injective on the keys
  the program constructs, so the store is modelled as an association list
  keyed by the structured `CellKey`.
-/

namespace Ledger

/-! ## src/utils/date_utils.py -/

/-- `get_days_in_month(year, month)` from `src/utils/date_utils.py`. -/
def getDaysInMonth (year month : Int) : Int :=
  if month = 1 ∨ month = 3 ∨ month = 5 ∨ month = 7 ∨ month = 8 ∨ month = 10 ∨ month = 12 then
    31
  else if month = 4 ∨ month = 6 ∨ month = 9 ∨ month = 11 then
    30
  else if month = 2 then
    if (year % 4 = 0 ∧ year % 100 ≠ 0) ∨ year % 400 = 0 then 29 else 28
  else
    30

/-- `is_leap_year(year)` from `src/utils/date_utils.py`. -/
def isLeapYear (year : Int) : Bool :=
  (year % 4 = 0 ∧ year % 100 ≠ 0) ∨ year % 400 = 0

/-! ## src/config.py : `format_currency` and `parse_amount`

Strings are modelled as `List Char`.  `format_currency` produces
`f"¥{amount:,}"` (empty string for 0): the decimal digits of `|amount|`,
grouped in threes from the right by commas, preceded by a minus sign for
negative amounts and by the currency glyph. -/

/-- The ten decimal digit characters. -/
def decimalDigits : List Char := ['0', '1', '2', '3', '4', '5', '6', '7', '8', '9']

/-- The character for a single decimal digit (any value `≥ 9` maps to `'9'`;
only arguments `< 10` are ever produced by `natToDigits`). -/
def digitChar : Nat → Char
  | 0 => '0' | 1 => '1' | 2 => '2' | 3 => '3' | 4 => '4'
  | 5 => '5' | 6 => '6' | 7 => '7' | 8 => '8' | _ => '9'

/-- Decimal digit list of a natural number, most significant first
(the digit sequence of Python `str(n)` for `n ≥ 0`). -/
def natToDigits (n : Nat) : List Char :=
  if _h : n < 10 then [digitChar n]
  else natToDigits (n / 10) ++ [digitChar (n % 10)]
  decreasing_by exact Nat.div_lt_self (by omega) (by omega)

/-- Insert a comma before every further group of three characters, walking a
reversed digit list (`k` counts the characters already emitted in the
current group). -/
def commaRevAux : List Char → Nat → List Char
  | [], _ => []
  | c :: cs, k =>
    if k = 3 then ',' :: c :: commaRevAux cs 1
    else c :: commaRevAux cs (k + 1)

/-- Thousands grouping of a digit list, as done by Python `f"{n:,}"`. -/
def groupThousands (ds : List Char) : List Char :=
  (commaRevAux ds.reverse 0).reverse

/-- `format_currency(amount)` from `src/config.py` (lines 175-187):
empty string for 0, otherwise `f"¥{amount:,}"`. -/
def formatCurrency (amount : Int) : List Char :=
  if amount = 0 then []
  else if amount < 0 then '¥' :: '-' :: groupThousands (natToDigits amount.natAbs)
  else '¥' :: groupThousands (natToDigits amount.natAbs)

/-- Python `str.strip()`: drop leading and trailing whitespace. -/
def pyStrip (cs : List Char) : List Char :=
  ((cs.dropWhile Char.isWhitespace).reverse.dropWhile Char.isWhitespace).reverse

/-- One step of decimal digit accumulation: fail on a non-digit. -/
def digitStep (acc : Option Nat) (c : Char) : Option Nat :=
  acc.bind fun a => if c.isDigit then some (10 * a + (c.toNat - 48)) else none

/-- Value of a run of decimal digit characters; `none` if empty or if a
non-digit occurs (the failure case of Python `int(...)`). -/
def digitsVal : List Char → Option Nat
  | [] => none
  | cs => cs.foldl digitStep (some 0)

/-- Python `int(text)` on a stripped string: an optional sign followed by at
least one decimal digit, `none` on any other shape (`ValueError`).
(Underscore digit separators, accepted by CPython, are not modelled; no
caller produces them.) -/
def pyParseInt (cs : List Char) : Option Int :=
  match cs with
  | [] => none
  | c :: rest =>
    if c = '-' then (digitsVal rest).map fun v => -(v : Int)
    else if c = '+' then (digitsVal rest).map fun v => (v : Int)
    else (digitsVal cs).map fun v => (v : Int)

/-- The `clean_amount` computation of `parse_amount`:
`str(amount_str).replace(',', '').replace('¥', '').strip()`. -/
def parseClean (cs : List Char) : List Char :=
  pyStrip ((cs.filter (fun c => c ≠ ',')).filter (fun c => c ≠ '¥'))

/-- `parse_amount(amount_str)` from `src/config.py` (lines 189-205):
empty/falsy input gives 0; otherwise commas and the currency glyph are
removed and the string stripped; empty remainder gives 0; a parse failure
gives 0. -/
def parseAmount (cs : List Char) : Int :=
  if cs = [] then 0
  else if parseClean cs = [] then 0
  else match pyParseInt (parseClean cs) with
    | some v => v
    | none => 0

/-! ## Data model

A transaction row is the triple `(支払先, 金額, 詳細)` = (payee, amount,
memo); a cell key is the structured form of the canonical string
`"{year}-{month}-{day}-{col}"`. -/

/-- One transaction row `[partner, amount, detail]`. -/
abbrev Row := String × String × String

/-- Structured form of the store key `"{year}-{month}-{day}-{col_index}"`. -/
structure CellKey where
  year : Int
  month : Int
  day : Int
  col : Int
deriving DecidableEq, Repr

/-- Python `str.strip()` on a `String` field. -/
def pyStripS (s : String) : String := ⟨pyStrip s.data⟩

/-- A row is blank when all three fields are empty after trimming
(`any(str(cell).strip() for cell in row)` is false, cf.
`src/ui/transaction_dialog.py` line 607). -/
def isBlankRow (r : Row) : Bool :=
  pyStripS r.1 = "" ∧ pyStripS r.2.1 = "" ∧ pyStripS r.2.2 = ""

/-! ### Association lists with Python-dict semantics

Assignment to an existing key replaces its binding in place, to a fresh
key appends at the end; deletion removes the binding.  Keys are unique in
every reachable dict, so removing every binding of the key models `del`. -/

/-- First binding of `k`, like `d.get(k)`. -/
def alookup {κ ν : Type} [DecidableEq κ] : List (κ × ν) → κ → Option ν
  | [], _ => none
  | (k1, v1) :: t, k => if k1 = k then some v1 else alookup t k

/-- `d[k] = v`: replace the binding of `k` in place, or append it. -/
def aset {κ ν : Type} [DecidableEq κ] : List (κ × ν) → κ → ν → List (κ × ν)
  | [], k, v => [(k, v)]
  | (k1, v1) :: t, k, v =>
    if k1 = k then (k, v) :: t else (k1, v1) :: aset t k v

/-- `del d[k]` (on a dict with unique keys). -/
def adelete {κ ν : Type} [DecidableEq κ] : List (κ × ν) → κ → List (κ × ν)
  | [], _ => []
  | (k1, v1) :: t, k =>
    if k1 = k then adelete t k else (k1, v1) :: adelete t k

/-- `a.update(b)`: bindings of keys already in `a` are replaced in place,
fresh keys of `b` are appended in order. -/
def aupdate {κ ν : Type} [DecidableEq κ] (a b : List (κ × ν)) : List (κ × ν) :=
  a.map (fun p => (p.1, (alookup b p.1).getD p.2)) ++
    b.filter (fun p => (alookup a p.1).isNone)

/-! ## src/models/data_manager.py : in-memory store

`self.data` is the dict `{key: [[partner, amount, detail], ...]}`. -/

/-- The in-memory transaction store `self.data`. -/
abbrev Store := List (CellKey × List Row)

/-- `get_transaction_data` (lines 433-435): `self.data.get(dict_key, [])`. -/
def getTransactionData (st : Store) (k : CellKey) : List Row :=
  (alookup st k).getD []

/-- The dict mutation of `set_transaction_data` (lines 437-448): a truthy
(non-empty) list is stored as given, otherwise the key is removed when
present.  (The subsequent `auto_save_transaction` call is the
file-system half, `autoSaveTransaction` below.) -/
def setData (st : Store) (k : CellKey) (rows : List Row) : Store :=
  if rows ≠ [] then aset st k rows
  else if (alookup st k).isSome then adelete st k
  else st

/-- The dict mutation of `delete_transaction_data` (lines 453-461). -/
def deleteData (st : Store) (k : CellKey) : Store :=
  if (alookup st k).isSome then adelete st k else st

/-! ## src/models/data_manager.py : on-disk model

A month shard `data/<year>/<month>/data.json` holds
`{"version", "year", "month", "data": {day: [entry, ...]}}`; only the
`"data"` map matters to the claims, so a shard is modelled as that map.
An entry `{"列目": str(col), "支払先": p, "金額": a, "詳細": d}` is
modelled with the column as `Int` (the file stores its decimal string, a
faithful bijection on the integers the program writes). -/

/-- One persisted transaction entry of a shard file. -/
structure Entry where
  col : Int
  partner : String
  amount : String
  detail : String
deriving DecidableEq, Repr

/-- The `"data"` map of one shard file: day number to entry list. -/
abbrev DayMap := List (Int × List Entry)

/-- The legacy flat `data.json` / `data_1.json` content: the
`"{year}-{month}-{day}-{col}"`-keyed map, with keys in structured form
(entries whose key does not split into 4 integers are skipped by
`_parse_key` and are not modelled). -/
abbrev LegacyData := List (CellKey × List Row)

/-- The parts of the on-disk state the data manager touches. -/
structure FileSystem where
  /-- existing `data/<year>/<month>/data.json` shard files -/
  shards : List ((Int × Int) × DayMap)
  /-- the legacy flat `data.json`, when present -/
  legacy : Option LegacyData
  /-- the legacy backup `data_1.json`, when present -/
  dataOld : Option LegacyData
  /-- modification times of the files in `household_json/backups`,
  in creation (= modification-time) order -/
  backups : List Nat
deriving DecidableEq, Repr

/-- Row to persisted entry, as built at data_manager lines 394-402
(and identically at 356-364 and 528-536): `str(x) if x else ""` is the
identity on the string fields. -/
def rowToEntry (col : Int) (r : Row) : Entry :=
  ⟨col, r.1, r.2.1, r.2.2⟩

/-- `_save_month_data` (lines 295-331): read the existing shard (missing or
unreadable file contributes `{}`), merge via `existing_data.update(month_data)`,
and write the result back.  The version/year/month header fields are not
modelled. -/
def saveMonthData (fs : FileSystem) (year month : Int) (monthData : DayMap) : FileSystem :=
  let existing := (alookup fs.shards (year, month)).getD []
  { fs with shards := aset fs.shards (year, month) (aupdate existing monthData) }

/-- `auto_save_transaction` (lines 370-408): collect only the given key's
rows (as entries of its column) under its day — an empty list when the key
is absent — and hand that single-day map to `_save_month_data`. -/
def autoSaveTransaction (fs : FileSystem) (st : Store) (k : CellKey) : FileSystem :=
  let dayEntries : List Entry :=
    match alookup st k with
    | some rows => rows.map (rowToEntry k.col)
    | none => []
  saveMonthData fs k.year k.month [(k.day, dayEntries)]

/-- `set_transaction_data` (lines 437-451): mutate the dict, then
immediately persist via `auto_save_transaction` (which reads the store
after the mutation). -/
def setTransactionData (st : Store) (fs : FileSystem) (k : CellKey) (rows : List Row) :
    Store × FileSystem :=
  let st1 := setData st k rows
  (st1, autoSaveTransaction fs st1 k)

/-- `delete_transaction_data` (lines 453-464). -/
def deleteTransactionData (st : Store) (fs : FileSystem) (k : CellKey) :
    Store × FileSystem :=
  let st1 := deleteData st k
  (st1, autoSaveTransaction fs st1 k)

/-- Shard lookup helper: the entry list the shard of `(year, month)` holds
for `day` (`none` when the shard has no such day key). -/
def shardDay (fs : FileSystem) (year month day : Int) : Option (List Entry) :=
  match alookup fs.shards (year, month) with
  | some dm => alookup dm day
  | none => none

/-- Append entries to a day's list, creating the day key at the end if
fresh — the `if day_key not in …: … = []` / `append` pattern used by
`_convert_old_to_new_format` (lines 109-126) and `save_data` (lines 351-364). -/
def dayAppend (dm : DayMap) (day : Int) (es : List Entry) : DayMap :=
  match alookup dm day with
  | some old => aset dm day (old ++ es)
  | none => dm ++ [(day, es)]

/-- Group a `"{y}-{m}-{d}-{c}"`-keyed map by `(year, month)` and then by
day, converting each row to an entry with its column — the common body of
`_convert_old_to_new_format` (lines 87-128, grouping by the
`f"{year}-{month}"` string) and `save_data` (lines 333-368, grouping by
the `(year, month)` tuple).  Iteration follows dict insertion order. -/
def groupByMonth (items : List (CellKey × List Row)) : List ((Int × Int) × DayMap) :=
  items.foldl
    (fun acc p =>
      let k := p.1
      let es := p.2.map (rowToEntry k.col)
      match alookup acc (k.year, k.month) with
      | some dm => aset acc (k.year, k.month) (dayAppend dm k.day es)
      | none => acc ++ [((k.year, k.month), dayAppend [] k.day es)])
    []

/-- `_migrate_old_format_data` (lines 236-269): convert the legacy flat
map, save every `(year, month)` group through `_save_month_data`, then
copy the legacy file to `data_1.json` when that backup does not yet
exist.  The legacy file itself is kept (the deletion is commented out in
the source), and the in-memory store is not touched. -/
def migrateOldFormatData (fs : FileSystem) (legacy : LegacyData) : FileSystem :=
  let fs1 := (groupByMonth legacy).foldl
    (fun f g => saveMonthData f g.1.1 g.1.2 g.2) fs
  match fs1.dataOld with
  | none => { fs1 with dataOld := some legacy }
  | some _ => fs1

/-- `_convert_new_to_old_format` (lines 130-167): regroup one shard's day
map by column, preserving entry order inside each group.  (Entries whose
`"列目"` field is the empty string are skipped in the source; the integer
column model cannot represent them and no writer produces them.) -/
def convertNewToOldFormat (year month : Int) (dm : DayMap) : List (CellKey × List Row) :=
  dm.foldl
    (fun acc p =>
      let colGroups : List (Int × List Row) :=
        p.2.foldl
          (fun gs e =>
            match alookup gs e.col with
            | some rows => aset gs e.col (rows ++ [(e.partner, e.amount, e.detail)])
            | none => gs ++ [(e.col, [(e.partner, e.amount, e.detail)])])
          []
      acc ++ colGroups.map (fun g => (CellKey.mk year month p.1 g.1, g.2)))
    []

/-- `_load_new_format_data` (lines 189-234): fold every shard file into a
fresh store via `self.data.update(old_format)`.  (Directory traversal
order, unreadable files and the payee-history extraction are not
modelled.) -/
def loadNewFormatData (shards : List ((Int × Int) × DayMap)) : Store :=
  shards.foldl
    (fun st s =>
      (convertNewToOldFormat s.1.1 s.1.2 s.2).foldl
        (fun st1 p => aset st1 p.1 p.2) st)
    []

/-- `_load_old_backup_data` (lines 271-293): merge `data_1.json` into the
store, existing keys winning. -/
def loadOldBackupData (st : Store) (backupData : LegacyData) : Store :=
  backupData.foldl
    (fun st1 p => if (alookup st1 p.1).isSome then st1 else aset st1 p.1 p.2)
    st

/-- `load_data` (lines 169-187): read the sharded layout, then migrate the
legacy flat file when present (a disk-only step), then merge
`data_1.json` (possibly just created by the migration) into memory. -/
def loadData (fs : FileSystem) : Store × FileSystem :=
  let st := loadNewFormatData fs.shards
  let fs1 := match fs.legacy with
    | some legacy => migrateOldFormatData fs legacy
    | none => fs
  let st1 := match fs1.dataOld with
    | some backupData => loadOldBackupData st backupData
    | none => st
  (st1, fs1)

/-- `save_data` (lines 333-368): group the whole store by `(year, month)`
and save every group through `_save_month_data`. -/
def saveData (fs : FileSystem) (st : Store) : FileSystem :=
  (groupByMonth st).foldl (fun f g => saveMonthData f g.1.1 g.1.2 g.2) fs

/-- Modelled from the spec: `save_backup`, which `_on_closing`
(src/ui/main_window.py line 199) invokes, is not defined anywhere under
src/.  Per the spec (§4.6 auto-backup, §6 backup directory): when the
legacy `data.json` exists, copy it to
`household_json/backups/data_<YYYYMMDD_HHMMSS>.json` and retain only the
50 most recent backups, deleting the oldest by modification time.  The
`backups` field lists the backup files' modification times in creation
order, so the newly written copy (time `now`) goes last and the oldest
files are at the front. -/
def saveBackup (fs : FileSystem) (now : Nat) : FileSystem :=
  match fs.legacy with
  | none => fs
  | some _ =>
    let bs := fs.backups ++ [now]
    { fs with backups := if bs.length ≤ 50 then bs else bs.drop (bs.length - 50) }

/-- `_on_closing` (src/ui/main_window.py lines 196-200): `_save_data`
(which runs `save_data`; `save_settings` has no data-file effect) followed
by `save_backup`. -/
def onClosing (fs : FileSystem) (st : Store) (now : Nat) : FileSystem :=
  saveBackup (saveData fs st) now

/-! ## src/ui/main_window.py : application state, undo log, cell operations

The window fields that carry engine state: `data_manager.data` (the
store), the on-disk files, `undo_stack`, and the displayed
`current_year` / `current_month`. -/

/-- One undo entry (main_window lines 1629-1634). -/
structure UndoEntry where
  action : String
  cells : List (CellKey × Option (List Row))
  year : Int
  month : Int
deriving DecidableEq, Repr

/-- The engine-relevant state of `MainWindow`. -/
structure AppState where
  store : Store
  fs : FileSystem
  undoStack : List UndoEntry
  curYear : Int
  curMonth : Int
deriving DecidableEq, Repr

/-- `self.max_undo_count` (main_window line 60). -/
def maxUndoCount : Nat := 50

/-- The stack mutation of `_save_undo_state` (lines 1636-1640): append,
then `pop(0)` once when the bound is exceeded. -/
def pushUndoEntry (stack : List UndoEntry) (e : UndoEntry) : List UndoEntry :=
  let s := stack ++ [e]
  if s.length > maxUndoCount then s.drop 1 else s

/-- `_save_undo_state` (lines 1621-1640). -/
def saveUndoState (app : AppState) (action : String)
    (cellsData : List (CellKey × Option (List Row))) : AppState :=
  { app with undoStack :=
      pushUndoEntry app.undoStack ⟨action, cellsData, app.curYear, app.curMonth⟩ }

/-- `old_data[:] if old_data else None` applied to
`get_transaction_data(key)`: `none` for an absent key (empty list), the
row list otherwise. -/
def snapshotOf (st : Store) (k : CellKey) : Option (List Row) :=
  match getTransactionData st k with
  | [] => none
  | rows => some rows

/-- The key `f"{self.current_year}-{self.current_month}-{day}-{col_idx}"`. -/
def cellKeyAt (app : AppState) (day col : Int) : CellKey :=
  ⟨app.curYear, app.curMonth, day, col⟩

/-- `set_transaction_data` as invoked from the window, acting on the app
state. -/
def applySetTransaction (app : AppState) (k : CellKey) (rows : List Row) : AppState :=
  let r := setTransactionData app.store app.fs k rows
  { app with store := r.1, fs := r.2 }

/-- `delete_transaction_data` as invoked from the window. -/
def applyDeleteTransaction (app : AppState) (k : CellKey) : AppState :=
  let r := deleteTransactionData app.store app.fs k
  { app with store := r.1, fs := r.2 }

/-- `_cut_cells` (lines 1376-1402): snapshot every selected cell, push one
`'cut'` entry, copy to the clipboard (no engine effect), then delete each
key.  An empty selection returns immediately.  `cells` lists the selected
`(day, col_idx)` pairs. -/
def cutCells (app : AppState) (cells : List (Int × Int)) : AppState :=
  match cells with
  | [] => app
  | _ =>
    let keys := cells.map fun c => cellKeyAt app c.1 c.2
    let undoData := keys.map fun k => (k, snapshotOf app.store k)
    let app1 := saveUndoState app "cut" undoData
    keys.foldl (fun a k => applyDeleteTransaction a k) app1

/-- `_delete_cells` (lines 1597-1619): identical to cut except for the
action tag and the absence of the clipboard copy. -/
def deleteCells (app : AppState) (cells : List (Int × Int)) : AppState :=
  match cells with
  | [] => app
  | _ =>
    let keys := cells.map fun c => cellKeyAt app c.1 c.2
    let undoData := keys.map fun k => (k, snapshotOf app.store k)
    let app1 := saveUndoState app "delete" undoData
    keys.foldl (fun a k => applyDeleteTransaction a k) app1

/-- The detail-edit of one cell: the dialog commit `_on_ok`
(src/ui/transaction_dialog.py lines 595-626) — drop blank rows, delete
the key when nothing remains, otherwise store the filtered rows — followed
by the caller's undo recording (main_window lines 868-882), which pushes
an `'edit_detail'` entry only when the data changed.  `dialogRows` are the
rows held by the dialog grid when OK is pressed. -/
def editDetail (app : AppState) (day col : Int) (dialogRows : List Row) : AppState :=
  let k := cellKeyAt app day col
  let oldData := getTransactionData app.store k
  let filtered := dialogRows.filter fun r => !(isBlankRow r)
  let app1 := if filtered.isEmpty then applyDeleteTransaction app k
    else applySetTransaction app k filtered
  let newData := getTransactionData app1.store k
  if oldData ≠ newData then
    saveUndoState app1 "edit_detail" [(k, snapshotOf app.store k)]
  else app1

/-- One record of the multi-cell clipboard payload
`[{"day": d, "col_idx": c, "data": rows}, ...]`. -/
structure PasteRec where
  day : Int
  col : Int
  data : List Row
deriving DecidableEq, Repr

/-- The per-record body of the grid-paste loop (main_window lines
1565-1591): compute the target from the record's offset against the
payload minima, skip out-of-range targets, snapshot the survivor into the
undo list and overwrite it when the record carries rows. -/
def pasteStep (baseDay baseCol minDay minCol daysInMonth numCols : Int)
    (acc : AppState × List (CellKey × Option (List Row))) (r : PasteRec) :
    AppState × List (CellKey × Option (List Row)) :=
  let targetDay := baseDay + (r.day - minDay)
  let targetCol := baseCol + (r.col - minCol)
  if targetDay < 0 ∨ (targetDay > daysInMonth ∧ targetDay ≠ 0) then acc
  else if targetCol ≤ 0 ∨ targetCol ≥ numCols then acc
  else
    let k : CellKey := ⟨acc.1.curYear, acc.1.curMonth, targetDay, targetCol⟩
    let undo1 := acc.2 ++ [(k, snapshotOf acc.1.store k)]
    if r.data ≠ [] then (applySetTransaction acc.1 k r.data, undo1)
    else (acc.1, undo1)

/-- The grid-payload branch of `_paste_cells` (main_window lines
1553-1595): anchor at `(baseDay, baseCol)`, shift every record by its
offset from the payload's `(min day, min col)`, skip out-of-range
targets, snapshot each surviving target, overwrite it when the record's
rows are non-empty, and finally push one `'paste'` entry when anything
was snapshotted.  `numCols` is `len(self.get_all_columns())` (12 built-in
columns plus the custom ones). -/
def pasteGrid (app : AppState) (baseDay baseCol numCols : Int)
    (payload : List PasteRec) : AppState :=
  match payload with
  | [] => app
  | r0 :: rest =>
    let minDay := rest.foldl (fun m r => min m r.day) r0.day
    let minCol := rest.foldl (fun m r => min m r.col) r0.col
    let daysInMonth := getDaysInMonth app.curYear app.curMonth
    let res := (r0 :: rest).foldl
      (pasteStep baseDay baseCol minDay minCol daysInMonth numCols) (app, [])
    if res.2 ≠ [] then saveUndoState res.1 "paste" res.2 else res.1

/-- The restore step of the `'cut'`/`'delete'` undo branch (main_window
lines 1663-1673): a truthy snapshot is written back, a `None` (or empty)
snapshot is left alone. -/
def restoreCutStep (a : AppState) (c : CellKey × Option (List Row)) : AppState :=
  match c.2 with
  | some rows => if rows.isEmpty then a else applySetTransaction a c.1 rows
  | none => a

/-- The restore step of the `'paste'`/`'edit_detail'` undo branch
(main_window lines 1675-1692): a `None` snapshot deletes the key, any
other snapshot is written back. -/
def restorePasteStep (a : AppState) (c : CellKey × Option (List Row)) : AppState :=
  match c.2 with
  | none => applyDeleteTransaction a c.1
  | some rows => applySetTransaction a c.1 rows

/-- `_undo` (main_window lines 1642-1692): pop the most recent entry,
switch the displayed month to the entry's, then restore every snapshot of
the entry in order. -/
def undoOp (app : AppState) : AppState :=
  match app.undoStack.getLast? with
  | none => app
  | some e =>
    let app1 := { app with undoStack := app.undoStack.dropLast,
                           curYear := e.year, curMonth := e.month }
    if e.action = "cut" ∨ e.action = "delete" then
      e.cells.foldl restoreCutStep app1
    else if e.action = "paste" ∨ e.action = "edit_detail" then
      e.cells.foldl restorePasteStep app1
    else app1

/-- One undoable cell operation, as dispatched by the window's handlers. -/
inductive CellOp where
  | cutOp (cells : List (Int × Int))
  | deleteOp (cells : List (Int × Int))
  | editOp (day col : Int) (dialogRows : List Row)
  | pasteOp (baseDay baseCol numCols : Int) (payload : List PasteRec)

/-- Run one cell operation on the app state. -/
def applyCellOp (app : AppState) : CellOp → AppState
  | .cutOp cells => cutCells app cells
  | .deleteOp cells => deleteCells app cells
  | .editOp day col dialogRows => editDetail app day col dialogRows
  | .pasteOp baseDay baseCol numCols payload => pasteGrid app baseDay baseCol numCols payload

/-- The operation records an undo entry: a non-empty selection for
cut/delete, a change of the cell's data for a detail edit, and at least
one in-range target for a grid paste. -/
def opRecords (app : AppState) : CellOp → Prop
  | .cutOp cells => cells ≠ []
  | .deleteOp cells => cells ≠ []
  | .editOp day col dialogRows =>
      getTransactionData app.store (cellKeyAt app day col) ≠
        dialogRows.filter fun r => !(isBlankRow r)
  | .pasteOp baseDay baseCol numCols payload =>
      match payload with
      | [] => False
      | r0 :: rest =>
        ∃ r ∈ r0 :: rest,
          ¬ (baseDay + (r.day - rest.foldl (fun m x => min m x.day) r0.day) < 0 ∨
            (baseDay + (r.day - rest.foldl (fun m x => min m x.day) r0.day) >
                getDaysInMonth app.curYear app.curMonth ∧
              baseDay + (r.day - rest.foldl (fun m x => min m x.day) r0.day) ≠ 0)) ∧
          ¬ (baseCol + (r.col - rest.foldl (fun m x => min m x.col) r0.col) ≤ 0 ∨
            baseCol + (r.col - rest.foldl (fun m x => min m x.col) r0.col) ≥ numCols)

/-- No two records of a paste payload aim at the same cell. -/
def opWellFormed : CellOp → Prop
  | .pasteOp _ _ _ payload => (payload.map fun r => (r.day, r.col)).Nodup
  | _ => True


/-- A user interaction touching the undo stack: an operation that records
an entry (`_save_undo_state`) or an undo (`_undo`, which pops the most
recent entry when one exists). -/
inductive StackOp where
  | record (e : UndoEntry)
  | undoPop
deriving Repr

/-- Effect of one interaction on the stack. -/
def applyStackOp (s : List UndoEntry) : StackOp → List UndoEntry
  | .record e => pushUndoEntry s e
  | .undoPop => s.dropLast

/-- Stack reached from the initial empty `undo_stack` by a sequence of
record/undo interactions. -/
def runStackOps (ops : List StackOp) : List UndoEntry :=
  ops.foldl applyStackOp []

/-! ## Helper lemmas -/

theorem getDaysInMonth_pos (year month : Int) : 0 < getDaysInMonth year month := by
  unfold getDaysInMonth
  split
  · norm_num
  · split
    · norm_num
    · split
      · split <;> norm_num
      · norm_num

theorem alookup_aset {κ ν : Type} [DecidableEq κ] (d : List (κ × ν)) (k : κ) (v : ν) (k1 : κ) :
    alookup (aset d k v) k1 = if k = k1 then some v else alookup d k1 := by
  induction d with
  | nil => simp [aset, alookup]
  | cons p t ih =>
    obtain ⟨kp, vp⟩ := p
    by_cases hkp : kp = k
    · subst hkp
      by_cases hk1 : kp = k1 <;> simp [aset, alookup, hk1]
    · by_cases hk1 : kp = k1
      · subst hk1
        have : ¬ k = kp := fun h => hkp h.symm
        simp [aset, alookup, hkp, this]
      · simp [aset, alookup, hkp, hk1, ih]

theorem alookup_adelete {κ ν : Type} [DecidableEq κ] (d : List (κ × ν)) (k k1 : κ) :
    alookup (adelete d k) k1 = if k = k1 then none else alookup d k1 := by
  induction d with
  | nil => simp [adelete, alookup]
  | cons p t ih =>
    obtain ⟨kp, vp⟩ := p
    by_cases hkp : kp = k
    · subst hkp
      rw [show adelete ((kp, vp) :: t) kp = adelete t kp from by simp [adelete], ih]
      by_cases hk1 : kp = k1
      · simp [hk1]
      · simp [alookup, hk1]
    · by_cases hk1 : kp = k1
      · subst hk1
        have hne : ¬ k = kp := fun h => hkp h.symm
        simp [adelete, alookup, hkp, hne]
      · simp [adelete, alookup, hkp, hk1, ih]

theorem alookup_append {κ ν : Type} [DecidableEq κ] (a b : List (κ × ν)) (k : κ) :
    alookup (a ++ b) k = ((alookup a k).orElse fun _ => alookup b k) := by
  induction a with
  | nil => simp [alookup]
  | cons p t ih =>
    obtain ⟨kp, vp⟩ := p
    by_cases hkp : kp = k <;> simp [alookup, hkp, ih]

theorem alookup_map_snd {κ ν : Type} [DecidableEq κ] (d : List (κ × ν))
    (f : κ → ν → ν) (k : κ) :
    alookup (d.map (fun p => (p.1, f p.1 p.2))) k = (alookup d k).map (f k) := by
  induction d with
  | nil => simp [alookup]
  | cons p t ih =>
    obtain ⟨kp, vp⟩ := p
    by_cases hkp : kp = k
    · subst hkp; simp [alookup]
    · simp [alookup, hkp, ih]

theorem alookup_filter_isNone {κ ν : Type} [DecidableEq κ] (a b : List (κ × ν)) (k : κ)
    (h : alookup a k = none) :
    alookup (b.filter (fun p => (alookup a p.1).isNone)) k = alookup b k := by
  induction b with
  | nil => simp
  | cons p t ih =>
    obtain ⟨kp, vp⟩ := p
    by_cases hkp : kp = k
    · subst hkp
      simp [List.filter, alookup, h, ih]
    · by_cases hnone : alookup a kp = none
      · simp [List.filter_cons, hnone, alookup, hkp, ih]
      · have hfalse : (alookup a kp).isNone = false := by
          cases halookup : alookup a kp with
          | none => exact absurd halookup hnone
          | some v => rfl
        simp [List.filter_cons, alookup, hkp, ih, hfalse]

theorem alookup_aupdate {κ ν : Type} [DecidableEq κ] (a b : List (κ × ν)) (k : κ) :
    alookup (aupdate a b) k =
      ((alookup b k).orElse fun _ => alookup a k) := by
  unfold aupdate
  rw [alookup_append]
  cases ha : alookup a k with
  | none =>
    have hmap : alookup (a.map fun p => (p.1, (alookup b p.1).getD p.2)) k = none := by
      have := alookup_map_snd a (fun k1 v1 => (alookup b k1).getD v1) k
      rw [this, ha]; rfl
    rw [hmap, alookup_filter_isNone a b k ha]
    cases alookup b k <;> rfl
  | some v =>
    have hmap : alookup (a.map fun p => (p.1, (alookup b p.1).getD p.2)) k
        = some ((alookup b k).getD v) := by
      have := alookup_map_snd a (fun k1 v1 => (alookup b k1).getD v1) k
      rw [this, ha]; rfl
    rw [hmap]
    cases alookup b k <;> rfl


theorem getTransactionData_setData (st : Store) (k : CellKey) (rows : List Row) (k1 : CellKey) :
    getTransactionData (setData st k rows) k1 =
      if k = k1 then (if rows = [] then [] else rows)
      else getTransactionData st k1 := by
  unfold setData getTransactionData
  by_cases hrows : rows = []
  · subst hrows
    have hcond : ¬ (([] : List Row) ≠ []) := by simp
    rw [if_neg hcond]
    by_cases hsome : (alookup st k).isSome = true
    · rw [if_pos hsome, alookup_adelete]
      by_cases hk : k = k1 <;> simp [hk]
    · rw [if_neg hsome]
      by_cases hk : k = k1
      · subst hk
        cases ha : alookup st k with
        | none => simp [ha]
        | some v => rw [ha] at hsome; simp at hsome
      · simp [hk]
  · rw [if_pos hrows, alookup_aset]
    by_cases hk : k = k1 <;> simp [hk, hrows]

theorem getTransactionData_deleteData (st : Store) (k k1 : CellKey) :
    getTransactionData (deleteData st k) k1 =
      if k = k1 then [] else getTransactionData st k1 := by
  unfold deleteData getTransactionData
  by_cases hsome : (alookup st k).isSome = true
  · simp [hsome, alookup_adelete]
    by_cases hk : k = k1 <;> simp [hk]
  · by_cases hk : k = k1
    · subst hk
      simp [hsome]
      cases ha : alookup st k
      · rfl
      · rw [ha] at hsome; simp at hsome
    · simp [hsome, hk]

theorem pushUndoEntry_length_le (s : List UndoEntry) (e : UndoEntry)
    (h : s.length ≤ maxUndoCount) : (pushUndoEntry s e).length ≤ maxUndoCount := by
  unfold pushUndoEntry
  by_cases hlen : (s ++ [e]).length > maxUndoCount
  · simp only [hlen, if_pos]
    simp at hlen ⊢
    omega
  · simp only [hlen, if_neg, not_false_iff]
    omega

theorem runStackOps_length_le (ops : List StackOp) :
    (runStackOps ops).length ≤ maxUndoCount := by
  suffices h : ∀ s : List UndoEntry, s.length ≤ maxUndoCount →
      (ops.foldl applyStackOp s).length ≤ maxUndoCount by
    exact h [] (by simp [maxUndoCount])
  induction ops with
  | nil => intro s hs; simpa using hs
  | cons op rest ih =>
    intro s hs
    simp only [List.foldl_cons]
    apply ih
    cases op with
    | record e => exact pushUndoEntry_length_le s e hs
    | undoPop =>
      simp only [applyStackOp]
      calc s.dropLast.length ≤ s.length := by
            rw [List.length_dropLast]; omega
        _ ≤ maxUndoCount := hs

/-! ## Claim theorems -/

/-- C9: for every year `y` and month `m` in 1..12, `get_days_in_month`
returns 31 for the long months, 30 for the short ones, and for February
29 exactly under the proleptic Gregorian leap rule — divisible by 4 and
(not divisible by 100 or divisible by 400) — and 28 otherwise. -/
theorem getDaysInMonth_follows_gregorian_rule (year month : Int)
    (h1 : 1 ≤ month) (h2 : month ≤ 12) :
    (month ∈ ([1, 3, 5, 7, 8, 10, 12] : List Int) → getDaysInMonth year month = 31) ∧
    (month ∈ ([4, 6, 9, 11] : List Int) → getDaysInMonth year month = 30) ∧
    (month = 2 →
      ((year % 4 = 0 ∧ (¬ year % 100 = 0 ∨ year % 400 = 0)) →
        getDaysInMonth year month = 29) ∧
      (¬ (year % 4 = 0 ∧ (¬ year % 100 = 0 ∨ year % 400 = 0)) →
        getDaysInMonth year month = 28)) := by
  refine ⟨?_, ?_, ?_⟩
  · intro hm
    simp only [List.mem_cons, List.not_mem_nil, or_false] at hm
    rcases hm with h | h | h | h | h | h | h <;> subst h <;> simp [getDaysInMonth]
  · intro hm
    simp only [List.mem_cons, List.not_mem_nil, or_false] at hm
    rcases hm with h | h | h | h <;> subst h <;> simp [getDaysInMonth]
  · intro hm
    subst hm
    have hA : ¬ ((2 : Int) = 1 ∨ (2 : Int) = 3 ∨ (2 : Int) = 5 ∨ (2 : Int) = 7 ∨
        (2 : Int) = 8 ∨ (2 : Int) = 10 ∨ (2 : Int) = 12) := by decide
    have hB : ¬ ((2 : Int) = 4 ∨ (2 : Int) = 6 ∨ (2 : Int) = 9 ∨ (2 : Int) = 11) := by decide
    constructor
    · intro hleap
      have hcode : (year % 4 = 0 ∧ year % 100 ≠ 0) ∨ year % 400 = 0 := by
        rcases hleap.2 with h | h
        · exact Or.inl ⟨hleap.1, h⟩
        · exact Or.inr h
      unfold getDaysInMonth
      rw [if_neg hA, if_neg hB, if_pos rfl, if_pos hcode]
    · intro hnot
      have hcode : ¬ ((year % 4 = 0 ∧ year % 100 ≠ 0) ∨ year % 400 = 0) := by
        intro hc
        apply hnot
        rcases hc with ⟨h4, h100⟩ | h400
        · exact ⟨h4, Or.inl h100⟩
        · exact ⟨by omega, Or.inr h400⟩
      unfold getDaysInMonth
      rw [if_neg hA, if_neg hB, if_pos rfl, if_neg hcode]

/-- Witness for C9 at the concrete leap year 2024, February. -/
theorem getDaysInMonth_follows_gregorian_rule_witness :
    ((2 : Int) ∈ ([1, 3, 5, 7, 8, 10, 12] : List Int) → getDaysInMonth 2024 2 = 31) ∧
    ((2 : Int) ∈ ([4, 6, 9, 11] : List Int) → getDaysInMonth 2024 2 = 30) ∧
    ((2 : Int) = 2 →
      (((2024 : Int) % 4 = 0 ∧ (¬ (2024 : Int) % 100 = 0 ∨ (2024 : Int) % 400 = 0)) →
        getDaysInMonth 2024 2 = 29) ∧
      (¬ ((2024 : Int) % 4 = 0 ∧ (¬ (2024 : Int) % 100 = 0 ∨ (2024 : Int) % 400 = 0)) →
        getDaysInMonth 2024 2 = 28)) :=
  getDaysInMonth_follows_gregorian_rule 2024 2 (by norm_num) (by norm_num)

/-- C8: the undo log is bounded to 50 entries — every sequence of
record/undo interactions starting from the empty stack yields at most 50
entries, and recording onto a full stack of 50 evicts the oldest entry,
keeping the most recent 50. -/
theorem undoStack_bounded_by_50 (ops : List StackOp) (s : List UndoEntry) (e : UndoEntry)
    (hfull : s.length = maxUndoCount) :
    (runStackOps ops).length ≤ 50 ∧ pushUndoEntry s e = s.drop 1 ++ [e] := by
  constructor
  · exact runStackOps_length_le ops
  · unfold pushUndoEntry
    have hgt : (s ++ [e]).length > maxUndoCount := by
      simp [hfull]
    simp only [hgt, if_pos]
    have hone : 1 ≤ s.length := by rw [hfull]; norm_num [maxUndoCount]
    rw [List.drop_append_of_le_length hone]

/-- Witness for C8 on a concrete full stack of 50 entries. -/
theorem undoStack_bounded_by_50_witness :
    (runStackOps []).length ≤ 50 ∧
      pushUndoEntry (List.replicate 50 (UndoEntry.mk "cut" [] 2025 6))
          (UndoEntry.mk "paste" [] 2025 6) =
        (List.replicate 50 (UndoEntry.mk "cut" [] 2025 6)).drop 1 ++
          [UndoEntry.mk "paste" [] 2025 6] :=
  undoStack_bounded_by_50 [] (List.replicate 50 (UndoEntry.mk "cut" [] 2025 6))
    (UndoEntry.mk "paste" [] 2025 6) (by simp [maxUndoCount])

theorem saveUndoState_store (app : AppState) (a : String)
    (c : List (CellKey × Option (List Row))) : (saveUndoState app a c).store = app.store := rfl

theorem editDetail_store (app : AppState) (day col : Int) (rows : List Row) :
    (editDetail app day col rows).store =
      (if (rows.filter fun r => !(isBlankRow r)).isEmpty
        then applyDeleteTransaction app (cellKeyAt app day col)
        else applySetTransaction app (cellKeyAt app day col)
          (rows.filter fun r => !(isBlankRow r))).store := by
  simp only [editDetail]
  split <;> split <;> rfl

/-- C1 counterexample: `set_transaction_data` called with a single blank
row stores it verbatim — the key ends up present with a blank row, and
`get_transaction_data` does not return the empty list the claim predicts
for an all-blank row set. -/
theorem setTransactionData_stores_blank_rows :
    getTransactionData
        (setTransactionData [] (FileSystem.mk [] none none [])
          (CellKey.mk 2025 6 14 2) [("", "", "")]).1
        (CellKey.mk 2025 6 14 2) = [("", "", "")] ∧
      isBlankRow ("", "", "") = true := by
  constructor
  · rfl
  · decide

/-- C1 (amended): `set_transaction_data` itself performs no blank-row
filtering — a non-empty row list is stored verbatim and an empty list
deletes the key; the blank-row filter (and the delete-when-all-blank
behaviour the claim describes) lives in the dialog commit `_on_ok`, so a
cell written through the detail dialog holds exactly the non-blank rows
in their original order. -/
theorem setTransactionData_amended :
    (∀ (st : Store) (fs : FileSystem) (k : CellKey) (rows : List Row),
      getTransactionData (setTransactionData st fs k rows).1 k =
        if rows = [] then [] else rows) ∧
    (∀ (app : AppState) (day col : Int) (dialogRows : List Row),
      getTransactionData (editDetail app day col dialogRows).store (cellKeyAt app day col) =
        dialogRows.filter fun r => !(isBlankRow r)) := by
  constructor
  · intro st fs k rows
    show getTransactionData (setData st k rows) k = _
    rw [getTransactionData_setData, if_pos rfl]
  · intro app day col dialogRows
    rw [editDetail_store]
    by_cases hempty : (dialogRows.filter fun r => !(isBlankRow r)).isEmpty = true
    · rw [if_pos hempty]
      show getTransactionData (deleteData app.store (cellKeyAt app day col))
        (cellKeyAt app day col) = _
      rw [getTransactionData_deleteData, if_pos rfl]
      exact (List.isEmpty_iff.mp hempty).symm
    · rw [if_neg hempty]
      show getTransactionData
        (setData app.store (cellKeyAt app day col)
          (dialogRows.filter fun r => !(isBlankRow r))) (cellKeyAt app day col) = _
      rw [getTransactionData_setData, if_pos rfl,
        if_neg (fun h => hempty (by rw [h]; rfl))]

/-- C10: in memory, `set_transaction_data` and `delete_transaction_data`
on a key leave every other key's data unchanged. -/
theorem singleCell_mutations_frame_preserving (st : Store) (fs : FileSystem)
    (k k1 : CellKey) (rows : List Row) (h : k1 ≠ k) :
    getTransactionData (setTransactionData st fs k rows).1 k1 = getTransactionData st k1 ∧
    getTransactionData (deleteTransactionData st fs k).1 k1 = getTransactionData st k1 := by
  have hk : ¬ k = k1 := fun he => h he.symm
  constructor
  · show getTransactionData (setData st k rows) k1 = _
    rw [getTransactionData_setData, if_neg hk]
  · show getTransactionData (deleteData st k) k1 = _
    rw [getTransactionData_deleteData, if_neg hk]

/-- Witness for C10 at two distinct concrete keys. -/
theorem singleCell_mutations_frame_preserving_witness :
    getTransactionData
        (setTransactionData [] (FileSystem.mk [] none none [])
          (CellKey.mk 2025 6 14 2) [("a", "100", "")]).1 (CellKey.mk 2025 6 14 3) =
      getTransactionData [] (CellKey.mk 2025 6 14 3) ∧
    getTransactionData
        (deleteTransactionData [] (FileSystem.mk [] none none [])
          (CellKey.mk 2025 6 14 2)).1 (CellKey.mk 2025 6 14 3) =
      getTransactionData [] (CellKey.mk 2025 6 14 3) :=
  singleCell_mutations_frame_preserving [] (FileSystem.mk [] none none [])
    (CellKey.mk 2025 6 14 2) (CellKey.mk 2025 6 14 3) [("a", "100", "")] (by decide)

/-- C3: failing-input evaluation.  The store holds rows for columns 2 and
3 of 2025-06-14 and the shard file agrees; committing new rows for
column 2 through `set_transaction_data` rewrites the shard's day-14 entry
with only column 2's rows, while the store still holds column 3's row —
`auto_save_transaction` collects only the edited key's rows for the day
(despite its own comment promising the month's full data) and
`_save_month_data` replaces the whole day entry with them. -/
theorem autoSave_drops_sibling_columns :
    shardDay
        (setTransactionData
          [(CellKey.mk 2025 6 14 2, [("a", "100", "")]),
           (CellKey.mk 2025 6 14 3, [("b", "200", "")])]
          (FileSystem.mk
            [((2025, 6), [(14, [Entry.mk 2 "a" "100" "", Entry.mk 3 "b" "200" ""])])]
            none none [])
          (CellKey.mk 2025 6 14 2) [("c", "300", "")]).2 2025 6 14 =
      some [Entry.mk 2 "c" "300" ""] ∧
    getTransactionData
        (setTransactionData
          [(CellKey.mk 2025 6 14 2, [("a", "100", "")]),
           (CellKey.mk 2025 6 14 3, [("b", "200", "")])]
          (FileSystem.mk
            [((2025, 6), [(14, [Entry.mk 2 "a" "100" "", Entry.mk 3 "b" "200" ""])])]
            none none [])
          (CellKey.mk 2025 6 14 2) [("c", "300", "")]).1
        (CellKey.mk 2025 6 14 3) = [("b", "200", "")] := by
  constructor
  · rfl
  · rfl

/-- C5 counterexample: a shard already holds an entry for cell
(2025, 6, day 14, column 2) and the legacy flat file holds a different
entry for the same cell; after `_migrate_old_format_data` the shard's
day-14 entry is the legacy-converted one, not the pre-existing sharded
one — the opposite of the claimed precedence. -/
theorem migration_sharded_data_overwritten :
    shardDay
        (migrateOldFormatData
          (FileSystem.mk [((2025, 6), [(14, [Entry.mk 2 "a" "100" ""])])]
            (some [(CellKey.mk 2025 6 14 2, [("b", "200", "")])]) none [])
          [(CellKey.mk 2025 6 14 2, [("b", "200", "")])]) 2025 6 14 =
      some [Entry.mk 2 "b" "200" ""] ∧
    shardDay
        (FileSystem.mk [((2025, 6), [(14, [Entry.mk 2 "a" "100" ""])])]
          (some [(CellKey.mk 2025 6 14 2, [("b", "200", "")])]) none [])
        2025 6 14 = some [Entry.mk 2 "a" "100" ""] := by
  constructor
  · rfl
  · rfl

/-- C5 (amended): on conflict the LEGACY entries take precedence — for
every file system, migrating a legacy file holding a cell's rows makes
the written shard map that cell's day to exactly the legacy-converted
rows, regardless of what the shard previously held for that day
(`existing_data.update(month_data)` lets the incoming legacy month data
replace the existing day entries). -/
theorem migration_legacy_precedence (fs : FileSystem) (y m d c : Int) (rows : List Row) :
    shardDay (migrateOldFormatData fs [(CellKey.mk y m d c, rows)]) y m d =
      some (rows.map (rowToEntry c)) := by
  have hgroup : groupByMonth [(CellKey.mk y m d c, rows)] =
      [((y, m), [(d, rows.map (rowToEntry c))])] := by
    simp [groupByMonth, dayAppend, alookup]
  unfold migrateOldFormatData
  rw [hgroup]
  simp only [List.foldl_cons, List.foldl_nil]
  have hmatch : ∀ fs1 : FileSystem,
      shardDay
        (match fs1.dataOld with
          | none => { fs1 with dataOld := some [(CellKey.mk y m d c, rows)] }
          | some _ => fs1) y m d = shardDay fs1 y m d := by
    intro fs1
    cases fs1.dataOld <;> rfl
  rw [hmatch]
  unfold shardDay saveMonthData
  simp [alookup_aset, alookup_aupdate, alookup]

theorem foldl_saveMonthData_backups (l : List ((Int × Int) × DayMap)) (f : FileSystem) :
    (l.foldl (fun a g => saveMonthData a g.1.1 g.1.2 g.2) f).backups = f.backups := by
  induction l generalizing f with
  | nil => rfl
  | cons g t ih => rw [List.foldl_cons, ih]; rfl

theorem foldl_saveMonthData_legacy (l : List ((Int × Int) × DayMap)) (f : FileSystem) :
    (l.foldl (fun a g => saveMonthData a g.1.1 g.1.2 g.2) f).legacy = f.legacy := by
  induction l generalizing f with
  | nil => rfl
  | cons g t ih => rw [List.foldl_cons, ih]; rfl

/-- C7 counterexample: loading a file system whose legacy `data.json`
exists and whose backup directory is empty leaves the backup directory
empty — `load_data` never copies the legacy file into the timestamped
backup directory. -/
theorem loadData_creates_no_backup :
    (loadData (FileSystem.mk []
        (some [(CellKey.mk 2025 6 14 2, [("a", "100", "")])]) none [])).2.backups = [] ∧
    (FileSystem.mk []
        (some [(CellKey.mk 2025 6 14 2, [("a", "100", "")])]) none []).legacy.isSome = true :=
  ⟨rfl, rfl⟩

/-- C7 (amended): the timestamped backup of the legacy file is made at
window close, not at load: `_on_closing` invokes `save_backup` (absent
from the repository sources, modelled from the spec) after saving, which
— when the legacy file exists — appends a backup with the current
timestamp and retains only the 50 most recent backup files, deleting the
oldest by modification time. -/
theorem backup_on_close_capped (fs : FileSystem) (st : Store) (now : Nat)
    (hlegacy : fs.legacy.isSome = true) (hlen : fs.backups.length ≤ 50) :
    (onClosing fs st now).backups =
      (if (fs.backups ++ [now]).length ≤ 50 then fs.backups ++ [now]
        else (fs.backups ++ [now]).drop 1) ∧
    (onClosing fs st now).backups.length ≤ 50 := by
  have hleg : (saveData fs st).legacy = fs.legacy := foldl_saveMonthData_legacy _ _
  have hback : (saveData fs st).backups = fs.backups := foldl_saveMonthData_backups _ _
  cases hL : fs.legacy with
  | none => rw [hL] at hlegacy; exact absurd hlegacy (by simp)
  | some L =>
    have hmain : (onClosing fs st now).backups =
        if (fs.backups ++ [now]).length ≤ 50 then fs.backups ++ [now]
        else (fs.backups ++ [now]).drop 1 := by
      unfold onClosing saveBackup
      simp only [hleg, hL, hback]
      by_cases hc : (fs.backups ++ [now]).length ≤ 50
      · rw [if_pos hc, if_pos hc]
      · rw [if_neg hc, if_neg hc]
        have hone : (fs.backups ++ [now]).length - 50 = 1 := by
          simp only [List.length_append, List.length_cons, List.length_nil] at hc ⊢
          omega
        rw [hone]
    refine ⟨hmain, ?_⟩
    rw [hmain]
    by_cases hc : (fs.backups ++ [now]).length ≤ 50
    · rw [if_pos hc]; exact hc
    · rw [if_neg hc]
      simp only [List.length_drop, List.length_append, List.length_cons,
        List.length_nil] at hc ⊢
      omega

/-- Witness for C7's amended theorem on a full 50-backup directory. -/
theorem backup_on_close_capped_witness :
    (onClosing (FileSystem.mk [] (some []) none (List.replicate 50 0)) [] 7).backups =
      (if ((List.replicate 50 0 : List Nat) ++ [7]).length ≤ 50
        then (List.replicate 50 0 : List Nat) ++ [7]
        else ((List.replicate 50 0 : List Nat) ++ [7]).drop 1) ∧
    (onClosing (FileSystem.mk [] (some []) none (List.replicate 50 0)) [] 7).backups.length ≤ 50 :=
  backup_on_close_capped (FileSystem.mk [] (some []) none (List.replicate 50 0)) [] 7
    (by rfl) (by simp)

/-! ### Lemmas for the amount round trip (C6) -/

theorem digitChar_mem_of_lt (n : Nat) (h : n < 10) : digitChar n ∈ decimalDigits := by
  interval_cases n <;> decide

theorem digitChar_isDigit_of_lt (n : Nat) (h : n < 10) : (digitChar n).isDigit = true := by
  interval_cases n <;> decide

theorem digitChar_toNat_of_lt (n : Nat) (h : n < 10) : (digitChar n).toNat - 48 = n := by
  interval_cases n <;> decide

theorem decimalDigits_benign : ∀ c ∈ decimalDigits,
    c ≠ ',' ∧ c ≠ '¥' ∧ c ≠ '-' ∧ c ≠ '+' ∧
      c.isWhitespace = false ∧ c.isDigit = true := by decide

theorem natToDigits_mem (n : Nat) : ∀ c ∈ natToDigits n, c ∈ decimalDigits := by
  induction n using Nat.strong_induction_on with
  | _ n ih =>
    intro c hc
    rw [natToDigits] at hc
    split at hc
    case isTrue h =>
      simp only [List.mem_singleton] at hc
      exact hc ▸ digitChar_mem_of_lt n h
    case isFalse h =>
      rcases List.mem_append.mp hc with h1 | h1
      · exact ih (n / 10) (Nat.div_lt_self (by omega) (by omega)) c h1
      · simp only [List.mem_singleton] at h1
        exact h1 ▸ digitChar_mem_of_lt (n % 10) (Nat.mod_lt n (by omega))

theorem natToDigits_ne_nil (n : Nat) : natToDigits n ≠ [] := by
  rw [natToDigits]
  split
  · simp
  · simp

theorem foldl_digitStep_natToDigits (n : Nat) : ∀ a : Nat,
    List.foldl digitStep (some a) (natToDigits n) =
      some (a * 10 ^ (natToDigits n).length + n) := by
  induction n using Nat.strong_induction_on with
  | _ n ih =>
    intro a
    rw [natToDigits]
    split
    case isTrue h =>
      have hstep : List.foldl digitStep (some a) [digitChar n] = some (10 * a + n) := by
        simp [digitStep, digitChar_isDigit_of_lt _ h, digitChar_toNat_of_lt _ h]
      rw [hstep]
      congr 1
      rw [List.length_singleton, pow_one]
      ring
    case isFalse h =>
      have hd : n % 10 < 10 := Nat.mod_lt _ (by omega)
      have hdiv : n / 10 < n := Nat.div_lt_self (by omega) (by omega)
      rw [List.foldl_append, ih (n / 10) hdiv a]
      have hstep : List.foldl digitStep
          (some (a * 10 ^ (natToDigits (n / 10)).length + n / 10)) [digitChar (n % 10)]
          = some (10 * (a * 10 ^ (natToDigits (n / 10)).length + n / 10) + n % 10) := by
        simp [digitStep, digitChar_isDigit_of_lt _ hd, digitChar_toNat_of_lt _ hd]
      rw [hstep]
      congr 1
      rw [List.length_append, List.length_singleton, pow_succ]
      have hdm : 10 * (n / 10) + n % 10 = n := Nat.div_add_mod n 10
      calc 10 * (a * 10 ^ (natToDigits (n / 10)).length + n / 10) + n % 10
          = a * (10 ^ (natToDigits (n / 10)).length * 10) + (10 * (n / 10) + n % 10) := by
            ring
        _ = a * (10 ^ (natToDigits (n / 10)).length * 10) + n := by rw [hdm]

theorem digitsVal_natToDigits (n : Nat) : digitsVal (natToDigits n) = some n := by
  have hne := natToDigits_ne_nil n
  have hfold := foldl_digitStep_natToDigits n 0
  cases hds : natToDigits n with
  | nil => exact absurd hds hne
  | cons c t =>
    rw [hds] at hfold
    calc digitsVal (c :: t) = List.foldl digitStep (some 0) (c :: t) := rfl
      _ = some (0 * 10 ^ (c :: t).length + n) := hfold
      _ = some n := by rw [Nat.zero_mul, Nat.zero_add]

theorem commaRevAux_filter (l : List Char) (h : ∀ c ∈ l, c ≠ ',') : ∀ k : Nat,
    (commaRevAux l k).filter (fun c => c ≠ ',') = l := by
  induction l with
  | nil => intro k; rfl
  | cons c cs ih =>
    intro k
    have hc : c ≠ ',' := h c (List.mem_cons_self _ _)
    have hcs : ∀ x ∈ cs, x ≠ ',' := fun x hx => h x (List.mem_cons_of_mem _ hx)
    have hcd : (decide (c ≠ ',')) = true := decide_eq_true hc
    unfold commaRevAux
    by_cases hk : k = 3
    · rw [if_pos hk, List.filter_cons, List.filter_cons,
        if_neg (by decide), if_pos hcd, ih hcs 1]
    · rw [if_neg hk, List.filter_cons, if_pos hcd, ih hcs (k + 1)]

theorem groupThousands_filter (ds : List Char) (h : ∀ c ∈ ds, c ≠ ',') :
    (groupThousands ds).filter (fun c => c ≠ ',') = ds := by
  unfold groupThousands
  rw [List.filter_reverse,
    commaRevAux_filter _ (fun c hc => h c (List.mem_reverse.mp hc)) 0,
    List.reverse_reverse]

theorem commaRevAux_subset (l : List Char) : ∀ (k : Nat), ∀ c ∈ commaRevAux l k,
    c = ',' ∨ c ∈ l := by
  induction l with
  | nil => intro k c hc; simp [commaRevAux] at hc
  | cons a t ih =>
    intro k c hc
    unfold commaRevAux at hc
    by_cases hk : k = 3
    · rw [if_pos hk] at hc
      rcases List.mem_cons.mp hc with rfl | hc2
      · exact Or.inl rfl
      · rcases List.mem_cons.mp hc2 with rfl | hc3
        · exact Or.inr (List.mem_cons_self _ _)
        · rcases ih 1 c hc3 with h1 | h1
          · exact Or.inl h1
          · exact Or.inr (List.mem_cons_of_mem _ h1)
    · rw [if_neg hk] at hc
      rcases List.mem_cons.mp hc with rfl | hc2
      · exact Or.inr (List.mem_cons_self _ _)
      · rcases ih (k + 1) c hc2 with h1 | h1
        · exact Or.inl h1
        · exact Or.inr (List.mem_cons_of_mem _ h1)

theorem groupThousands_subset (ds : List Char) : ∀ c ∈ groupThousands ds,
    c = ',' ∨ c ∈ ds := by
  intro c hc
  unfold groupThousands at hc
  rcases commaRevAux_subset ds.reverse 0 c (List.mem_reverse.mp hc) with h1 | h1
  · exact Or.inl h1
  · exact Or.inr (List.mem_reverse.mp h1)

theorem dropWhile_eq_self_of (l : List Char) (p : Char → Bool)
    (h : ∀ c ∈ l, p c = false) : l.dropWhile p = l := by
  cases l with
  | nil => rfl
  | cons c t =>
    rw [List.dropWhile_cons]
    simp [h c (List.mem_cons_self _ _)]

theorem pyStrip_eq_self_of (l : List Char)
    (h : ∀ c ∈ l, c.isWhitespace = false) : pyStrip l = l := by
  unfold pyStrip
  rw [dropWhile_eq_self_of l _ h,
    dropWhile_eq_self_of l.reverse _ (fun c hc => h c (List.mem_reverse.mp hc)),
    List.reverse_reverse]

/-- C6: the amount formatter and parser round-trip — for every integer,
`parse_amount(format_currency(n)) == n`; `format_currency(0)` is the
empty string and `parse_amount("")` is 0. -/
theorem parseAmount_formatCurrency_roundtrip :
    (∀ n : Int, parseAmount (formatCurrency n) = n) ∧
    formatCurrency 0 = [] ∧ parseAmount [] = 0 := by
  refine ⟨?_, rfl, rfl⟩
  intro n
  by_cases h0 : n = 0
  · subst h0; rfl
  · have hmem : ∀ c ∈ natToDigits n.natAbs, c ∈ decimalDigits := natToDigits_mem _
    have hds_ne : natToDigits n.natAbs ≠ [] := natToDigits_ne_nil _
    have hnocomma : ∀ c ∈ natToDigits n.natAbs, c ≠ ',' :=
      fun c hc => (decimalDigits_benign c (hmem c hc)).1
    have hnoyen : ∀ c ∈ natToDigits n.natAbs, c ≠ '¥' :=
      fun c hc => (decimalDigits_benign c (hmem c hc)).2.1
    have hnows : ∀ c ∈ natToDigits n.natAbs, c.isWhitespace = false :=
      fun c hc => (decimalDigits_benign c (hmem c hc)).2.2.2.2.1
    have hfilter1 : (groupThousands (natToDigits n.natAbs)).filter (fun c => c ≠ ',') =
        natToDigits n.natAbs := groupThousands_filter _ hnocomma
    have hGyen : ∀ c ∈ groupThousands (natToDigits n.natAbs), c ≠ '¥' := by
      intro c hc
      rcases groupThousands_subset _ c hc with rfl | h1
      · decide
      · exact hnoyen c h1
    have hfilter2 : (natToDigits n.natAbs).filter (fun c => c ≠ '¥') =
        natToDigits n.natAbs :=
      List.filter_eq_self.mpr (fun c hc => by simpa using hnoyen c hc)
    by_cases hneg : n < 0
    · have hfc : formatCurrency n =
          '¥' :: '-' :: groupThousands (natToDigits n.natAbs) := by
        unfold formatCurrency
        rw [if_neg h0, if_pos hneg]
      have hclean : parseClean ('¥' :: '-' :: groupThousands (natToDigits n.natAbs)) =
          '-' :: natToDigits n.natAbs := by
        unfold parseClean
        rw [List.filter_cons, List.filter_cons]
        simp only [show (decide ¬('¥' = ',')) = true from rfl,
          show (decide ¬('-' = ',')) = true from rfl, if_true]
        rw [hfilter1, List.filter_cons, List.filter_cons]
        simp only [show (decide ¬('¥' = '¥')) = false from rfl,
          show (decide ¬('-' = '¥')) = true from rfl, if_false, if_true]
        rw [hfilter2]
        apply pyStrip_eq_self_of
        intro c hc
        rcases List.mem_cons.mp hc with rfl | hc2
        · decide
        · exact hnows c hc2
      have hpp : pyParseInt ('-' :: natToDigits n.natAbs) = some (-(n.natAbs : Int)) := by
        simp only [pyParseInt]
        rw [if_pos trivial, digitsVal_natToDigits]
        rfl
      rw [hfc]
      unfold parseAmount
      rw [if_neg (List.cons_ne_nil _ _), hclean,
        if_neg (List.cons_ne_nil _ _), hpp]
      show -(n.natAbs : Int) = n
      omega
    · have hpos : 0 < n := lt_of_le_of_ne (not_lt.mp hneg) (Ne.symm h0)
      have hfc : formatCurrency n = '¥' :: groupThousands (natToDigits n.natAbs) := by
        unfold formatCurrency
        rw [if_neg h0, if_neg hneg]
      have hclean : parseClean ('¥' :: groupThousands (natToDigits n.natAbs)) =
          natToDigits n.natAbs := by
        unfold parseClean
        rw [List.filter_cons]
        simp only [show (decide ¬('¥' = ',')) = true from rfl, if_true]
        rw [hfilter1, List.filter_cons]
        simp only [show (decide ¬('¥' = '¥')) = false from rfl, if_false]
        rw [hfilter2]
        exact pyStrip_eq_self_of _ hnows
      have hpp : pyParseInt (natToDigits n.natAbs) = some (n.natAbs : Int) := by
        cases hds2 : natToDigits n.natAbs with
        | nil => exact absurd hds2 hds_ne
        | cons c t =>
          have hcmem : c ∈ decimalDigits := hmem c (by rw [hds2]; exact List.mem_cons_self _ _)
          have hbenign := decimalDigits_benign c hcmem
          simp only [pyParseInt]
          rw [if_neg hbenign.2.2.1, if_neg hbenign.2.2.2.1, ← hds2,
            digitsVal_natToDigits]
          rfl
      rw [hfc]
      unfold parseAmount
      rw [if_neg (List.cons_ne_nil _ _), hclean, if_neg hds_ne, hpp]
      show (n.natAbs : Int) = n
      omega

/-! ### Lemmas about the grid-paste loop (C2, C4) -/

theorem pasteStep_curYear (b c mD mC dim nC : Int) (acc) (r : PasteRec) :
    (pasteStep b c mD mC dim nC acc r).1.curYear = acc.1.curYear := by
  simp only [pasteStep]
  split
  · rfl
  · split
    · rfl
    · split <;> rfl

theorem pasteStep_curMonth (b c mD mC dim nC : Int) (acc) (r : PasteRec) :
    (pasteStep b c mD mC dim nC acc r).1.curMonth = acc.1.curMonth := by
  simp only [pasteStep]
  split
  · rfl
  · split
    · rfl
    · split <;> rfl

theorem pasteStep_store_frame (b c mD mC dim nC : Int) (acc) (r : PasteRec) (k : CellKey)
    (hk : CellKey.mk acc.1.curYear acc.1.curMonth
      (b + (r.day - mD)) (c + (r.col - mC)) ≠ k) :
    getTransactionData (pasteStep b c mD mC dim nC acc r).1.store k =
      getTransactionData acc.1.store k := by
  simp only [pasteStep]
  split
  · rfl
  · split
    · rfl
    · split
      · show getTransactionData (setData acc.1.store _ r.data) k = _
        rw [getTransactionData_setData, if_neg hk]
      · rfl

theorem pasteStep_store_of_nowrite (b c mD mC dim nC : Int) (acc) (r : PasteRec)
    (h : (b + (r.day - mD) < 0 ∨ (b + (r.day - mD) > dim ∧ b + (r.day - mD) ≠ 0)) ∨
         (c + (r.col - mC) ≤ 0 ∨ c + (r.col - mC) ≥ nC) ∨ r.data = []) :
    (pasteStep b c mD mC dim nC acc r).1.store = acc.1.store := by
  simp only [pasteStep]
  split
  · rfl
  case isFalse hA =>
    split
    · rfl
    case isFalse hB =>
      split
      case isTrue hC =>
        rcases h with h1 | h2 | h3
        · exact absurd h1 hA
        · exact absurd h2 hB
        · exact absurd h3 hC
      · rfl

theorem foldl_pasteStep_frame (b c mD mC dim nC : Int) (l : List PasteRec) :
    ∀ (acc : AppState × List (CellKey × Option (List Row))) (y m : Int) (k : CellKey),
      acc.1.curYear = y → acc.1.curMonth = m →
      (∀ r ∈ l, CellKey.mk y m (b + (r.day - mD)) (c + (r.col - mC)) = k →
        (b + (r.day - mD) < 0 ∨ (b + (r.day - mD) > dim ∧ b + (r.day - mD) ≠ 0)) ∨
        (c + (r.col - mC) ≤ 0 ∨ c + (r.col - mC) ≥ nC) ∨ r.data = []) →
      getTransactionData (l.foldl (pasteStep b c mD mC dim nC) acc).1.store k =
        getTransactionData acc.1.store k := by
  induction l with
  | nil => intro acc y m k hy hm h; rfl
  | cons r t ih =>
    intro acc y m k hy hm h
    rw [List.foldl_cons]
    have hy1 : (pasteStep b c mD mC dim nC acc r).1.curYear = y := by
      rw [pasteStep_curYear, hy]
    have hm1 : (pasteStep b c mD mC dim nC acc r).1.curMonth = m := by
      rw [pasteStep_curMonth, hm]
    rw [ih _ y m k hy1 hm1 (fun x hx => h x (List.mem_cons_of_mem _ hx))]
    by_cases hk : CellKey.mk y m (b + (r.day - mD)) (c + (r.col - mC)) = k
    · rw [pasteStep_store_of_nowrite b c mD mC dim nC acc r
        (h r (List.mem_cons_self _ _) hk)]
    · exact pasteStep_store_frame b c mD mC dim nC acc r k (by rw [hy, hm]; exact hk)

theorem foldl_pasteStep_written (b c mD mC dim nC : Int) (l : List PasteRec) :
    ∀ (acc : AppState × List (CellKey × Option (List Row))) (y m : Int),
      acc.1.curYear = y → acc.1.curMonth = m →
      (l.map fun x => (x.day, x.col)).Nodup →
      ∀ r ∈ l,
        getTransactionData (l.foldl (pasteStep b c mD mC dim nC) acc).1.store
            (CellKey.mk y m (b + (r.day - mD)) (c + (r.col - mC))) =
          if ¬ (b + (r.day - mD) < 0 ∨ (b + (r.day - mD) > dim ∧ b + (r.day - mD) ≠ 0)) ∧
             ¬ (c + (r.col - mC) ≤ 0 ∨ c + (r.col - mC) ≥ nC) ∧ r.data ≠ []
          then r.data
          else getTransactionData acc.1.store
            (CellKey.mk y m (b + (r.day - mD)) (c + (r.col - mC))) := by
  induction l with
  | nil => intro acc y m hy hm hnodup r hr; exact absurd hr (List.not_mem_nil r)
  | cons r1 t ih =>
    intro acc y m hy hm hnodup r hr
    have hnodup2 : ((r1.day, r1.col) ∉ t.map fun x => (x.day, x.col)) ∧
        (t.map fun x => (x.day, x.col)).Nodup := List.nodup_cons.mp hnodup
    have hy1 : (pasteStep b c mD mC dim nC acc r1).1.curYear = y := by
      rw [pasteStep_curYear, hy]
    have hm1 : (pasteStep b c mD mC dim nC acc r1).1.curMonth = m := by
      rw [pasteStep_curMonth, hm]
    rcases List.mem_cons.mp hr with heq | hrt
    · subst heq
      rw [List.foldl_cons]
      have hfr : ∀ x ∈ t,
          CellKey.mk y m (b + (x.day - mD)) (c + (x.col - mC)) =
            CellKey.mk y m (b + (r.day - mD)) (c + (r.col - mC)) →
          (b + (x.day - mD) < 0 ∨ (b + (x.day - mD) > dim ∧ b + (x.day - mD) ≠ 0)) ∨
          (c + (x.col - mC) ≤ 0 ∨ c + (x.col - mC) ≥ nC) ∨ x.data = [] := by
        intro x hx hkey
        exfalso
        simp only [CellKey.mk.injEq] at hkey
        have hd : x.day = r.day := by omega
        have hc : x.col = r.col := by omega
        exact hnodup2.1 (List.mem_map.mpr ⟨x, hx, by rw [hd, hc]⟩)
      rw [foldl_pasteStep_frame b c mD mC dim nC t _ y m _ hy1 hm1 hfr]
      by_cases hA : b + (r.day - mD) < 0 ∨ (b + (r.day - mD) > dim ∧ b + (r.day - mD) ≠ 0)
      · rw [pasteStep_store_of_nowrite b c mD mC dim nC acc r (Or.inl hA),
          if_neg (by tauto)]
      · by_cases hB : c + (r.col - mC) ≤ 0 ∨ c + (r.col - mC) ≥ nC
        · rw [pasteStep_store_of_nowrite b c mD mC dim nC acc r (Or.inr (Or.inl hB)),
            if_neg (by tauto)]
        · by_cases hD : r.data = []
          · rw [pasteStep_store_of_nowrite b c mD mC dim nC acc r (Or.inr (Or.inr hD)),
              if_neg (by tauto)]
          · rw [if_pos ⟨hA, hB, hD⟩]
            simp only [pasteStep]
            rw [if_neg hA, if_neg hB, if_pos hD]
            show getTransactionData (setData acc.1.store
              (CellKey.mk acc.1.curYear acc.1.curMonth
                (b + (r.day - mD)) (c + (r.col - mC))) r.data) _ = r.data
            rw [hy, hm, getTransactionData_setData, if_pos rfl, if_neg hD]
    · rw [List.foldl_cons,
        ih (pasteStep b c mD mC dim nC acc r1) y m hy1 hm1 hnodup2.2 r hrt]
      have hne : CellKey.mk acc.1.curYear acc.1.curMonth
          (b + (r1.day - mD)) (c + (r1.col - mC)) ≠
          CellKey.mk y m (b + (r.day - mD)) (c + (r.col - mC)) := by
        rw [hy, hm]
        intro hkey
        simp only [CellKey.mk.injEq] at hkey
        have hd : r1.day = r.day := by omega
        have hc : r1.col = r.col := by omega
        exact hnodup2.1 (List.mem_map.mpr ⟨r, hrt, by rw [hd, hc]⟩)
      rw [pasteStep_store_frame b c mD mC dim nC acc r1 _ hne]

theorem pasteGrid_store (app : AppState) (b c nC : Int) (r0 : PasteRec)
    (rest : List PasteRec) :
    (pasteGrid app b c nC (r0 :: rest)).store =
      ((r0 :: rest).foldl
        (pasteStep b c (rest.foldl (fun m r => min m r.day) r0.day)
          (rest.foldl (fun m r => min m r.col) r0.col)
          (getDaysInMonth app.curYear app.curMonth) nC) (app, [])).1.store := by
  simp only [pasteGrid]
  split <;> rfl

/-- C2 counterexample: pasting the payload
`[{day 0, col 3, rows}, {day 0, col 4, rows}]` anchored at the summary
cell (day 0, column 3) writes the record aimed at (day 0, column 4) —
the code has no day-0-only-column-3 restriction, so a target the claim
says must be skipped is written. -/
theorem pasteGrid_writes_day0_noncol3 :
    getTransactionData
        (pasteGrid (AppState.mk [] (FileSystem.mk [] none none []) [] 2025 6)
          0 3 13
          [PasteRec.mk 0 3 [("s", "100", "")], PasteRec.mk 0 4 [("t", "200", "")]]).store
        (CellKey.mk 2025 6 0 4) = [("t", "200", "")] ∧
      [("t", "200", "")] ≠ ([] : List Row) := by
  constructor
  · rfl
  · decide

/-- C2 (amended): for a grid-payload paste whose records target pairwise
distinct cells, each record is directed to
`(baseDay + (day − minDay), baseCol + (col − minCol))`; a target is
skipped exactly when its day is outside `[0, daysInMonth]` (with no
column restriction on day 0) or its column is outside
`[1, numCols)` or the record's row list is empty, and every written
target's rows are replaced wholesale by the record's rows. -/
theorem pasteGrid_skip_characterization (app : AppState) (baseDay baseCol numCols : Int)
    (r0 : PasteRec) (rest : List PasteRec)
    (hnodup : ((r0 :: rest).map fun r => (r.day, r.col)).Nodup)
    (r : PasteRec) (hr : r ∈ r0 :: rest) :
    ((0 ≤ baseDay + (r.day - rest.foldl (fun m x => min m x.day) r0.day) ∧
        baseDay + (r.day - rest.foldl (fun m x => min m x.day) r0.day) ≤
          getDaysInMonth app.curYear app.curMonth ∧
        1 ≤ baseCol + (r.col - rest.foldl (fun m x => min m x.col) r0.col) ∧
        baseCol + (r.col - rest.foldl (fun m x => min m x.col) r0.col) < numCols) ∧
      r.data ≠ [] →
      getTransactionData (pasteGrid app baseDay baseCol numCols (r0 :: rest)).store
        (CellKey.mk app.curYear app.curMonth
          (baseDay + (r.day - rest.foldl (fun m x => min m x.day) r0.day))
          (baseCol + (r.col - rest.foldl (fun m x => min m x.col) r0.col))) = r.data) ∧
    (¬ (0 ≤ baseDay + (r.day - rest.foldl (fun m x => min m x.day) r0.day) ∧
        baseDay + (r.day - rest.foldl (fun m x => min m x.day) r0.day) ≤
          getDaysInMonth app.curYear app.curMonth ∧
        1 ≤ baseCol + (r.col - rest.foldl (fun m x => min m x.col) r0.col) ∧
        baseCol + (r.col - rest.foldl (fun m x => min m x.col) r0.col) < numCols) ∨
      r.data = [] →
      getTransactionData (pasteGrid app baseDay baseCol numCols (r0 :: rest)).store
        (CellKey.mk app.curYear app.curMonth
          (baseDay + (r.day - rest.foldl (fun m x => min m x.day) r0.day))
          (baseCol + (r.col - rest.foldl (fun m x => min m x.col) r0.col))) =
        getTransactionData app.store
          (CellKey.mk app.curYear app.curMonth
            (baseDay + (r.day - rest.foldl (fun m x => min m x.day) r0.day))
            (baseCol + (r.col - rest.foldl (fun m x => min m x.col) r0.col)))) := by
  have hdim : 0 < getDaysInMonth app.curYear app.curMonth := getDaysInMonth_pos _ _
  have hmain := foldl_pasteStep_written baseDay baseCol
    (rest.foldl (fun m x => min m x.day) r0.day)
    (rest.foldl (fun m x => min m x.col) r0.col)
    (getDaysInMonth app.curYear app.curMonth) numCols (r0 :: rest)
    (app, []) app.curYear app.curMonth rfl rfl hnodup r hr
  rw [pasteGrid_store]
  constructor
  · intro h
    obtain ⟨⟨h1, h2, h3, h4⟩, h5⟩ := h
    rw [hmain, if_pos ⟨by omega, by omega, h5⟩]
  · intro h
    rw [hmain, if_neg ?hc]
    case hc =>
      intro hc
      obtain ⟨c1, c2, c3⟩ := hc
      rcases h with hrange | hdata
      · exact hrange ⟨by omega, by omega, by omega, by omega⟩
      · exact c3 hdata

/-- Witness for C2 at a concrete two-record payload; the first record's
target (day 10, column 4) is in range and gets the record's rows. -/
theorem pasteGrid_skip_characterization_witness :
    ((0 ≤ (10 : Int) + ((5 : Int) -
        [PasteRec.mk 5 3 [("u", "50", "")]].foldl (fun m x => min m x.day)
          (PasteRec.mk 5 2 [("s", "100", "")]).day) ∧
        (10 : Int) + ((5 : Int) -
          [PasteRec.mk 5 3 [("u", "50", "")]].foldl (fun m x => min m x.day)
            (PasteRec.mk 5 2 [("s", "100", "")]).day) ≤
          getDaysInMonth (AppState.mk [] (FileSystem.mk [] none none []) [] 2025 6).curYear
            (AppState.mk [] (FileSystem.mk [] none none []) [] 2025 6).curMonth ∧
        1 ≤ (4 : Int) + ((2 : Int) -
          [PasteRec.mk 5 3 [("u", "50", "")]].foldl (fun m x => min m x.col)
            (PasteRec.mk 5 2 [("s", "100", "")]).col) ∧
        (4 : Int) + ((2 : Int) -
          [PasteRec.mk 5 3 [("u", "50", "")]].foldl (fun m x => min m x.col)
            (PasteRec.mk 5 2 [("s", "100", "")]).col) < 13) ∧
      (PasteRec.mk 5 2 [("s", "100", "")]).data ≠ [] →
      getTransactionData
          (pasteGrid (AppState.mk [] (FileSystem.mk [] none none []) [] 2025 6) 10 4 13
            [PasteRec.mk 5 2 [("s", "100", "")], PasteRec.mk 5 3 [("u", "50", "")]]).store
          (CellKey.mk (AppState.mk [] (FileSystem.mk [] none none []) [] 2025 6).curYear
            (AppState.mk [] (FileSystem.mk [] none none []) [] 2025 6).curMonth
            ((10 : Int) + ((5 : Int) -
              [PasteRec.mk 5 3 [("u", "50", "")]].foldl (fun m x => min m x.day)
                (PasteRec.mk 5 2 [("s", "100", "")]).day))
            ((4 : Int) + ((2 : Int) -
              [PasteRec.mk 5 3 [("u", "50", "")]].foldl (fun m x => min m x.col)
                (PasteRec.mk 5 2 [("s", "100", "")]).col))) =
        (PasteRec.mk 5 2 [("s", "100", "")]).data) ∧
    (¬ (0 ≤ (10 : Int) + ((5 : Int) -
        [PasteRec.mk 5 3 [("u", "50", "")]].foldl (fun m x => min m x.day)
          (PasteRec.mk 5 2 [("s", "100", "")]).day) ∧
        (10 : Int) + ((5 : Int) -
          [PasteRec.mk 5 3 [("u", "50", "")]].foldl (fun m x => min m x.day)
            (PasteRec.mk 5 2 [("s", "100", "")]).day) ≤
          getDaysInMonth (AppState.mk [] (FileSystem.mk [] none none []) [] 2025 6).curYear
            (AppState.mk [] (FileSystem.mk [] none none []) [] 2025 6).curMonth ∧
        1 ≤ (4 : Int) + ((2 : Int) -
          [PasteRec.mk 5 3 [("u", "50", "")]].foldl (fun m x => min m x.col)
            (PasteRec.mk 5 2 [("s", "100", "")]).col) ∧
        (4 : Int) + ((2 : Int) -
          [PasteRec.mk 5 3 [("u", "50", "")]].foldl (fun m x => min m x.col)
            (PasteRec.mk 5 2 [("s", "100", "")]).col) < 13) ∨
      (PasteRec.mk 5 2 [("s", "100", "")]).data = [] →
      getTransactionData
          (pasteGrid (AppState.mk [] (FileSystem.mk [] none none []) [] 2025 6) 10 4 13
            [PasteRec.mk 5 2 [("s", "100", "")], PasteRec.mk 5 3 [("u", "50", "")]]).store
          (CellKey.mk (AppState.mk [] (FileSystem.mk [] none none []) [] 2025 6).curYear
            (AppState.mk [] (FileSystem.mk [] none none []) [] 2025 6).curMonth
            ((10 : Int) + ((5 : Int) -
              [PasteRec.mk 5 3 [("u", "50", "")]].foldl (fun m x => min m x.day)
                (PasteRec.mk 5 2 [("s", "100", "")]).day))
            ((4 : Int) + ((2 : Int) -
              [PasteRec.mk 5 3 [("u", "50", "")]].foldl (fun m x => min m x.col)
                (PasteRec.mk 5 2 [("s", "100", "")]).col))) =
        getTransactionData
          (AppState.mk [] (FileSystem.mk [] none none []) [] 2025 6).store
          (CellKey.mk (AppState.mk [] (FileSystem.mk [] none none []) [] 2025 6).curYear
            (AppState.mk [] (FileSystem.mk [] none none []) [] 2025 6).curMonth
            ((10 : Int) + ((5 : Int) -
              [PasteRec.mk 5 3 [("u", "50", "")]].foldl (fun m x => min m x.day)
                (PasteRec.mk 5 2 [("s", "100", "")]).day))
            ((4 : Int) + ((2 : Int) -
              [PasteRec.mk 5 3 [("u", "50", "")]].foldl (fun m x => min m x.col)
                (PasteRec.mk 5 2 [("s", "100", "")]).col)))) :=
  pasteGrid_skip_characterization
    (AppState.mk [] (FileSystem.mk [] none none []) [] 2025 6) 10 4 13
    (PasteRec.mk 5 2 [("s", "100", "")]) [PasteRec.mk 5 3 [("u", "50", "")]]
    (by decide) (PasteRec.mk 5 2 [("s", "100", "")]) (List.mem_cons_self _ _)

/-! ### Lemmas for the undo theorem (C4) -/

theorem snapshotOf_none_iff (st : Store) (k : CellKey) :
    snapshotOf st k = none ↔ getTransactionData st k = [] := by
  unfold snapshotOf
  cases h : getTransactionData st k <;> simp

theorem snapshotOf_some (st : Store) (k : CellKey) (rows : List Row)
    (h : snapshotOf st k = some rows) :
    getTransactionData st k = rows ∧ rows ≠ [] := by
  unfold snapshotOf at h
  cases hg : getTransactionData st k with
  | nil => rw [hg] at h; exact absurd h (by simp)
  | cons a t =>
    rw [hg] at h
    simp only [Option.some.injEq] at h
    exact ⟨h, by rw [← h]; simp⟩

theorem snapshotOf_congr (st1 st2 : Store) (k : CellKey)
    (h : getTransactionData st1 k = getTransactionData st2 k) :
    snapshotOf st1 k = snapshotOf st2 k := by
  unfold snapshotOf
  rw [h]

theorem foldl_applyDelete_stack (keys : List CellKey) : ∀ a : AppState,
    (keys.foldl applyDeleteTransaction a).undoStack = a.undoStack := by
  induction keys with
  | nil => intro a; rfl
  | cons k t ih => intro a; rw [List.foldl_cons, ih]; rfl

theorem foldl_applyDelete_curYear (keys : List CellKey) : ∀ a : AppState,
    (keys.foldl applyDeleteTransaction a).curYear = a.curYear := by
  induction keys with
  | nil => intro a; rfl
  | cons k t ih => intro a; rw [List.foldl_cons, ih]; rfl

theorem foldl_applyDelete_store (keys : List CellKey) : ∀ (a : AppState) (k : CellKey),
    getTransactionData (keys.foldl applyDeleteTransaction a).store k =
      if k ∈ keys then [] else getTransactionData a.store k := by
  induction keys with
  | nil =>
    intro a k
    rw [if_neg (List.not_mem_nil k)]
    rfl
  | cons k0 t ih =>
    intro a k
    rw [List.foldl_cons, ih]
    by_cases hkt : k ∈ t
    · rw [if_pos hkt, if_pos (List.mem_cons_of_mem _ hkt)]
    · rw [if_neg hkt]
      show getTransactionData (deleteData a.store k0) k = _
      rw [getTransactionData_deleteData]
      by_cases hk0 : k0 = k
      · rw [if_pos hk0, if_pos (by rw [← hk0]; exact List.mem_cons_self _ _)]
      · rw [if_neg hk0, if_neg (by
          intro hmem
          rcases List.mem_cons.mp hmem with h1 | h1
          · exact hk0 h1.symm
          · exact hkt h1)]

theorem pasteStep_stack (b c mD mC dim nC : Int) (acc) (r : PasteRec) :
    (pasteStep b c mD mC dim nC acc r).1.undoStack = acc.1.undoStack := by
  simp only [pasteStep]
  split
  · rfl
  · split
    · rfl
    · split <;> rfl

theorem foldl_pasteStep_stack (b c mD mC dim nC : Int) (l : List PasteRec) :
    ∀ acc, ((l.foldl (pasteStep b c mD mC dim nC) acc).1.undoStack = acc.1.undoStack) := by
  induction l with
  | nil => intro acc; rfl
  | cons r t ih =>
    intro acc
    rw [List.foldl_cons, ih, pasteStep_stack]

theorem pushUndoEntry_getLast (s : List UndoEntry) (e : UndoEntry) :
    (pushUndoEntry s e).getLast? = some e := by
  simp only [pushUndoEntry]
  split
  next h =>
    have h1 : 1 ≤ s.length := by
      simp only [List.length_append, List.length_cons, List.length_nil,
        maxUndoCount] at h
      omega
    rw [List.drop_append_of_le_length h1]
    simp [List.getLast?_append]
  next h => simp [List.getLast?_append]

theorem undoOp_eq (app : AppState) (e : UndoEntry)
    (h : app.undoStack.getLast? = some e) :
    undoOp app =
      (if e.action = "cut" ∨ e.action = "delete" then
        e.cells.foldl restoreCutStep
          { app with undoStack := app.undoStack.dropLast,
                     curYear := e.year, curMonth := e.month }
      else if e.action = "paste" ∨ e.action = "edit_detail" then
        e.cells.foldl restorePasteStep
          { app with undoStack := app.undoStack.dropLast,
                     curYear := e.year, curMonth := e.month }
      else
        { app with undoStack := app.undoStack.dropLast,
                   curYear := e.year, curMonth := e.month }) := by
  unfold undoOp
  rw [h]

theorem undoOp_store_cutlike (app2 : AppState) (s : List UndoEntry) (e : UndoEntry)
    (hstack : app2.undoStack = pushUndoEntry s e)
    (haction : e.action = "cut" ∨ e.action = "delete") :
    (undoOp app2).store =
      (e.cells.foldl restoreCutStep
        { app2 with undoStack := app2.undoStack.dropLast,
                    curYear := e.year, curMonth := e.month }).store := by
  have hlast : app2.undoStack.getLast? = some e := by
    rw [hstack]; exact pushUndoEntry_getLast s e
  rw [undoOp_eq app2 e hlast, if_pos haction]

theorem undoOp_store_pastelike (app2 : AppState) (s : List UndoEntry) (e : UndoEntry)
    (hstack : app2.undoStack = pushUndoEntry s e)
    (hnotcut : ¬ (e.action = "cut" ∨ e.action = "delete"))
    (haction : e.action = "paste" ∨ e.action = "edit_detail") :
    (undoOp app2).store =
      (e.cells.foldl restorePasteStep
        { app2 with undoStack := app2.undoStack.dropLast,
                    curYear := e.year, curMonth := e.month }).store := by
  have hlast : app2.undoStack.getLast? = some e := by
    rw [hstack]; exact pushUndoEntry_getLast s e
  rw [undoOp_eq app2 e hlast, if_neg hnotcut, if_pos haction]

theorem foldl_restoreCutStep (st0 : Store) (snaps : List (CellKey × Option (List Row))) :
    ∀ a : AppState,
      (∀ p ∈ snaps, p.2 = snapshotOf st0 p.1) →
      (∀ k, getTransactionData a.store k = getTransactionData st0 k ∨
        ((k, snapshotOf st0 k) ∈ snaps ∧ getTransactionData a.store k = [])) →
      ∀ k, getTransactionData (snaps.foldl restoreCutStep a).store k =
        getTransactionData st0 k := by
  induction snaps with
  | nil =>
    intro a hsnap hinv k
    rcases hinv k with h | h
    · exact h
    · exact absurd h.1 (List.not_mem_nil _)
  | cons p t ih =>
    intro a hsnap hinv k
    obtain ⟨kp, sp⟩ := p
    have hspec : sp = snapshotOf st0 kp := hsnap (kp, sp) (List.mem_cons_self _ _)
    rw [List.foldl_cons]
    apply ih _ (fun q hq => hsnap q (List.mem_cons_of_mem _ hq))
    intro k1
    by_cases hk1 : k1 = kp
    · subst hk1
      left
      cases hsp : snapshotOf st0 k1 with
      | none =>
        have hst0 : getTransactionData st0 k1 = [] := (snapshotOf_none_iff st0 k1).mp hsp
        have hstep : restoreCutStep a (k1, sp) = a := by
          rw [hspec, hsp]; rfl
        rw [hstep, hst0]
        rcases hinv k1 with h | h
        · rw [h, hst0]
        · exact h.2
      | some rows =>
        obtain ⟨hval, hne⟩ := snapshotOf_some st0 k1 rows hsp
        have hstep : restoreCutStep a (k1, sp) = applySetTransaction a k1 rows := by
          rw [hspec, hsp]
          show (if rows.isEmpty then a else applySetTransaction a k1 rows) = _
          rw [if_neg (by simpa using hne)]
        rw [hstep]
        show getTransactionData (setData a.store k1 rows) k1 = _
        rw [getTransactionData_setData, if_pos rfl, if_neg hne, hval]
    · have hframe : getTransactionData (restoreCutStep a (kp, sp)).store k1 =
          getTransactionData a.store k1 := by
        unfold restoreCutStep
        cases sp with
        | none => rfl
        | some rows =>
          show getTransactionData
            (if rows.isEmpty then a else applySetTransaction a kp rows).store k1 = _
          by_cases hrows : rows.isEmpty
          · rw [if_pos hrows]
          · rw [if_neg hrows]
            show getTransactionData (setData a.store kp rows) k1 = _
            rw [getTransactionData_setData, if_neg (fun h => hk1 h.symm)]
      rw [hframe]
      rcases hinv k1 with h | h
      · exact Or.inl h
      · refine Or.inr ⟨?_, h.2⟩
        rcases List.mem_cons.mp h.1 with h1 | h1
        · exact absurd (congrArg Prod.fst h1) hk1
        · exact h1

theorem foldl_restorePasteStep (st0 : Store) (snaps : List (CellKey × Option (List Row))) :
    ∀ a : AppState,
      (∀ p ∈ snaps, p.2 = snapshotOf st0 p.1) →
      (∀ k, getTransactionData a.store k = getTransactionData st0 k ∨
        (k, snapshotOf st0 k) ∈ snaps) →
      ∀ k, getTransactionData (snaps.foldl restorePasteStep a).store k =
        getTransactionData st0 k := by
  induction snaps with
  | nil =>
    intro a hsnap hinv k
    rcases hinv k with h | h
    · exact h
    · exact absurd h (List.not_mem_nil _)
  | cons p t ih =>
    intro a hsnap hinv k
    obtain ⟨kp, sp⟩ := p
    have hspec : sp = snapshotOf st0 kp := hsnap (kp, sp) (List.mem_cons_self _ _)
    rw [List.foldl_cons]
    apply ih _ (fun q hq => hsnap q (List.mem_cons_of_mem _ hq))
    intro k1
    by_cases hk1 : k1 = kp
    · subst hk1
      left
      cases hsp : snapshotOf st0 k1 with
      | none =>
        have hst0 : getTransactionData st0 k1 = [] := (snapshotOf_none_iff st0 k1).mp hsp
        have hstep : restorePasteStep a (k1, sp) = applyDeleteTransaction a k1 := by
          rw [hspec, hsp]; rfl
        rw [hstep]
        show getTransactionData (deleteData a.store k1) k1 = _
        rw [getTransactionData_deleteData, if_pos rfl, hst0]
      | some rows =>
        obtain ⟨hval, hne⟩ := snapshotOf_some st0 k1 rows hsp
        have hstep : restorePasteStep a (k1, sp) = applySetTransaction a k1 rows := by
          rw [hspec, hsp]; rfl
        rw [hstep]
        show getTransactionData (setData a.store k1 rows) k1 = _
        rw [getTransactionData_setData, if_pos rfl, if_neg hne, hval]
    · have hframe : getTransactionData (restorePasteStep a (kp, sp)).store k1 =
          getTransactionData a.store k1 := by
        unfold restorePasteStep
        cases sp with
        | none =>
          show getTransactionData (deleteData a.store kp) k1 = _
          rw [getTransactionData_deleteData, if_neg (fun h => hk1 h.symm)]
        | some rows =>
          show getTransactionData (setData a.store kp rows) k1 = _
          rw [getTransactionData_setData, if_neg (fun h => hk1 h.symm)]
      rw [hframe]
      rcases hinv k1 with h | h
      · exact Or.inl h
      · rcases List.mem_cons.mp h with h1 | h1
        · exact absurd (congrArg Prod.fst h1) hk1
        · exact Or.inr h1

theorem foldl_pasteStep_snaps (st0 : Store) (b c mD mC dim nC : Int) (l : List PasteRec) :
    ∀ (acc : AppState × List (CellKey × Option (List Row))) (y m : Int),
      acc.1.curYear = y → acc.1.curMonth = m →
      (l.map fun x => (x.day, x.col)).Nodup →
      (∀ r ∈ l, getTransactionData acc.1.store
          (CellKey.mk y m (b + (r.day - mD)) (c + (r.col - mC))) =
        getTransactionData st0 (CellKey.mk y m (b + (r.day - mD)) (c + (r.col - mC)))) →
      (l.foldl (pasteStep b c mD mC dim nC) acc).2 =
        acc.2 ++ l.filterMap (fun r =>
          if ¬ (b + (r.day - mD) < 0 ∨ (b + (r.day - mD) > dim ∧ b + (r.day - mD) ≠ 0)) ∧
              ¬ (c + (r.col - mC) ≤ 0 ∨ c + (r.col - mC) ≥ nC)
          then some (CellKey.mk y m (b + (r.day - mD)) (c + (r.col - mC)),
            snapshotOf st0 (CellKey.mk y m (b + (r.day - mD)) (c + (r.col - mC))))
          else none) := by
  induction l with
  | nil => intro acc y m hy hm hnodup hagree; simp
  | cons r t ih =>
    intro acc y m hy hm hnodup hagree
    have hnodup2 : ((r.day, r.col) ∉ t.map fun x => (x.day, x.col)) ∧
        (t.map fun x => (x.day, x.col)).Nodup := List.nodup_cons.mp hnodup
    rw [List.foldl_cons, List.filterMap_cons]
    by_cases hA : b + (r.day - mD) < 0 ∨ (b + (r.day - mD) > dim ∧ b + (r.day - mD) ≠ 0)
    · have hstep : pasteStep b c mD mC dim nC acc r = acc := by
        simp only [pasteStep]
        rw [if_pos hA]
      rw [hstep, if_neg (by tauto),
        ih acc y m hy hm hnodup2.2 (fun x hx => hagree x (List.mem_cons_of_mem _ hx))]
    · by_cases hB : c + (r.col - mC) ≤ 0 ∨ c + (r.col - mC) ≥ nC
      · have hstep : pasteStep b c mD mC dim nC acc r = acc := by
          simp only [pasteStep]
          rw [if_neg hA, if_pos hB]
        rw [hstep, if_neg (by tauto),
          ih acc y m hy hm hnodup2.2 (fun x hx => hagree x (List.mem_cons_of_mem _ hx))]
      · rw [if_pos ⟨hA, hB⟩]
        have hsnap : snapshotOf acc.1.store
            (CellKey.mk y m (b + (r.day - mD)) (c + (r.col - mC))) =
            snapshotOf st0 (CellKey.mk y m (b + (r.day - mD)) (c + (r.col - mC))) :=
          snapshotOf_congr _ _ _ (hagree r (List.mem_cons_self _ _))
        have hstep2 : (pasteStep b c mD mC dim nC acc r).2 =
            acc.2 ++ [(CellKey.mk y m (b + (r.day - mD)) (c + (r.col - mC)),
              snapshotOf st0 (CellKey.mk y m (b + (r.day - mD)) (c + (r.col - mC))))] := by
          simp only [pasteStep]
          rw [if_neg hA, if_neg hB, hy, hm, hsnap]
          split <;> rfl
        have hstore : ∀ x ∈ t, getTransactionData
            (pasteStep b c mD mC dim nC acc r).1.store
              (CellKey.mk y m (b + (x.day - mD)) (c + (x.col - mC))) =
            getTransactionData st0
              (CellKey.mk y m (b + (x.day - mD)) (c + (x.col - mC))) := by
          intro x hx
          have hne : CellKey.mk acc.1.curYear acc.1.curMonth
              (b + (r.day - mD)) (c + (r.col - mC)) ≠
              CellKey.mk y m (b + (x.day - mD)) (c + (x.col - mC)) := by
            rw [hy, hm]
            intro he
            simp only [CellKey.mk.injEq] at he
            have hd : x.day = r.day := by omega
            have hcc : x.col = r.col := by omega
            exact hnodup2.1 (List.mem_map.mpr ⟨x, hx, by rw [hd, hcc]⟩)
          rw [pasteStep_store_frame b c mD mC dim nC acc r _ hne]
          exact hagree x (List.mem_cons_of_mem _ hx)
        rw [ih (pasteStep b c mD mC dim nC acc r) y m
          (by rw [pasteStep_curYear, hy]) (by rw [pasteStep_curMonth, hm])
          hnodup2.2 hstore, hstep2]
        simp [List.append_assoc]

theorem editDetail_recorded (app : AppState) (day col : Int) (rows : List Row)
    (hchanged : getTransactionData app.store (cellKeyAt app day col) ≠
      rows.filter fun r => !(isBlankRow r)) :
    editDetail app day col rows =
      saveUndoState
        (if (rows.filter fun r => !(isBlankRow r)).isEmpty
          then applyDeleteTransaction app (cellKeyAt app day col)
          else applySetTransaction app (cellKeyAt app day col)
            (rows.filter fun r => !(isBlankRow r)))
        "edit_detail"
        [(cellKeyAt app day col, snapshotOf app.store (cellKeyAt app day col))] := by
  have hnew : getTransactionData
      (if (rows.filter fun r => !(isBlankRow r)).isEmpty
        then applyDeleteTransaction app (cellKeyAt app day col)
        else applySetTransaction app (cellKeyAt app day col)
          (rows.filter fun r => !(isBlankRow r))).store (cellKeyAt app day col) =
      rows.filter fun r => !(isBlankRow r) := by
    by_cases hempty : (rows.filter fun r => !(isBlankRow r)).isEmpty = true
    · rw [if_pos hempty]
      show getTransactionData (deleteData app.store (cellKeyAt app day col)) _ = _
      rw [getTransactionData_deleteData, if_pos rfl]
      exact (List.isEmpty_iff.mp hempty).symm
    · rw [if_neg hempty]
      show getTransactionData (setData app.store (cellKeyAt app day col) _) _ = _
      rw [getTransactionData_setData, if_pos rfl,
        if_neg (fun h => hempty (by rw [h]; rfl))]
  simp only [editDetail]
  rw [if_pos (by rw [hnew]; exact hchanged)]

theorem undo_after_cutlike (app : AppState) (c0 : Int × Int) (cs : List (Int × Int))
    (tag : String) (htag : tag = "cut" ∨ tag = "delete") :
    ∀ k, getTransactionData (undoOp
        (((c0 :: cs).map fun p => cellKeyAt app p.1 p.2).foldl applyDeleteTransaction
          (saveUndoState app tag
            (((c0 :: cs).map fun p => cellKeyAt app p.1 p.2).map
              fun k1 => (k1, snapshotOf app.store k1))))).store k =
      getTransactionData app.store k := by
  intro k
  set keys := (c0 :: cs).map fun p => cellKeyAt app p.1 p.2 with hkeys
  set ud := keys.map fun k1 => (k1, snapshotOf app.store k1) with hud
  set e : UndoEntry := ⟨tag, ud, app.curYear, app.curMonth⟩ with he
  set app2 := keys.foldl applyDeleteTransaction (saveUndoState app tag ud) with happ2
  have hstack : app2.undoStack = pushUndoEntry app.undoStack e := by
    rw [happ2, foldl_applyDelete_stack]
    rfl
  rw [undoOp_store_cutlike app2 app.undoStack e hstack htag]
  refine foldl_restoreCutStep app.store e.cells _ ?hsnap ?hinv k
  case hsnap =>
    intro p hp
    rcases List.mem_map.mp
      (show p ∈ keys.map fun k1 => (k1, snapshotOf app.store k1) from hp) with ⟨k1, hk1, hpe⟩
    rw [← hpe]
  case hinv =>
    intro k1
    have hval : getTransactionData app2.store k1 =
        if k1 ∈ keys then [] else getTransactionData app.store k1 := by
      rw [happ2, foldl_applyDelete_store]
      rfl
    by_cases hk1 : k1 ∈ keys
    · refine Or.inr ⟨?_, ?_⟩
      · show (k1, snapshotOf app.store k1) ∈ keys.map fun k2 => (k2, snapshotOf app.store k2)
        exact List.mem_map.mpr ⟨k1, hk1, rfl⟩
      · show getTransactionData app2.store k1 = []
        rw [hval, if_pos hk1]
    · left
      show getTransactionData app2.store k1 = _
      rw [hval, if_neg hk1]

/-- C4 counterexample: a paste whose two records target the same cell
breaks undo — with cell (2025, 6, day 5, col 2) holding `[("c","3","")]`,
pasting `[{day 5, col 2, [("a","1","")]}, {day 5, col 2, [("b","2","")]}]`
at anchor (5, 2) and undoing immediately leaves the cell at
`[("a","1","")]` (the snapshot taken after the first write), not its
pre-operation value. -/
theorem pasteGrid_undo_duplicate_targets :
    getTransactionData
        (undoOp (pasteGrid
          (AppState.mk [(CellKey.mk 2025 6 5 2, [("c", "3", "")])]
            (FileSystem.mk [] none none []) [] 2025 6)
          5 2 13
          [PasteRec.mk 5 2 [("a", "1", "")], PasteRec.mk 5 2 [("b", "2", "")]])).store
        (CellKey.mk 2025 6 5 2) = [("a", "1", "")] ∧
      getTransactionData
        (AppState.mk [(CellKey.mk 2025 6 5 2, [("c", "3", "")])]
          (FileSystem.mk [] none none []) [] 2025 6).store
        (CellKey.mk 2025 6 5 2) = [("c", "3", "")] ∧
      [("a", "1", "")] ≠ [("c", "3", "")] := by
  refine ⟨rfl, rfl, ?_⟩
  decide

/-- C4 (amended): undo immediately after a cut, delete, paste or
detail-edit restores every key (in fact the whole store) to its exact
pre-operation state, provided the operation recorded an undo entry (a
non-empty selection for cut/delete, a data change for a detail edit, at
least one in-range target for a paste) and, for a paste, no two payload
records target the same cell; with duplicate paste targets the later
snapshot — taken after the earlier write — wins, leaving an intermediate
state. -/
theorem undo_restores_prior_state (app : AppState) (op : CellOp)
    (hwf : opWellFormed op) (hrec : opRecords app op) :
    ∀ k, getTransactionData (undoOp (applyCellOp app op)).store k =
      getTransactionData app.store k := by
  cases op with
  | cutOp cells =>
    cases cells with
    | nil => exact absurd rfl hrec
    | cons c0 cs => exact undo_after_cutlike app c0 cs "cut" (Or.inl rfl)
  | deleteOp cells =>
    cases cells with
    | nil => exact absurd rfl hrec
    | cons c0 cs => exact undo_after_cutlike app c0 cs "delete" (Or.inr rfl)
  | editOp day col rows =>
    intro k
    have hrec2 : getTransactionData app.store (cellKeyAt app day col) ≠
        rows.filter fun r => !(isBlankRow r) := hrec
    rw [show applyCellOp app (CellOp.editOp day col rows) =
        editDetail app day col rows from rfl,
      editDetail_recorded app day col rows hrec2]
    set app1 := if (rows.filter fun r => !(isBlankRow r)).isEmpty
      then applyDeleteTransaction app (cellKeyAt app day col)
      else applySetTransaction app (cellKeyAt app day col)
        (rows.filter fun r => !(isBlankRow r)) with happ1
    have happ1stack : app1.undoStack = app.undoStack := by
      rw [happ1]; split <;> rfl
    set e : UndoEntry := ⟨"edit_detail",
      [(cellKeyAt app day col, snapshotOf app.store (cellKeyAt app day col))],
      app1.curYear, app1.curMonth⟩ with he
    have hstack : (saveUndoState app1 "edit_detail"
        [(cellKeyAt app day col, snapshotOf app.store (cellKeyAt app day col))]).undoStack =
        pushUndoEntry app.undoStack e := by
      show pushUndoEntry app1.undoStack e = pushUndoEntry app.undoStack e
      rw [happ1stack]
    have hnotcut : ¬ (e.action = "cut" ∨ e.action = "delete") := by
      show ¬ (("edit_detail" : String) = "cut" ∨ ("edit_detail" : String) = "delete")
      decide
    rw [undoOp_store_pastelike _ app.undoStack e hstack hnotcut (Or.inr rfl)]
    refine foldl_restorePasteStep app.store e.cells _ ?hsnap ?hinv k
    case hsnap =>
      intro p hp
      have hp2 := List.mem_singleton.mp
        (show p ∈ [(cellKeyAt app day col, snapshotOf app.store (cellKeyAt app day col))]
          from hp)
      rw [hp2]
    case hinv =>
      intro k1
      by_cases hk1 : k1 = cellKeyAt app day col
      · subst hk1
        exact Or.inr (List.mem_singleton.mpr rfl)
      · left
        show getTransactionData app1.store k1 = _
        rw [happ1]
        split
        · show getTransactionData (deleteData app.store (cellKeyAt app day col)) k1 = _
          rw [getTransactionData_deleteData, if_neg (fun h => hk1 h.symm)]
        · show getTransactionData (setData app.store (cellKeyAt app day col) _) k1 = _
          rw [getTransactionData_setData, if_neg (fun h => hk1 h.symm)]
  | pasteOp b c nC payload =>
    cases payload with
    | nil => exact hrec.elim
    | cons r0 rest =>
      intro k
      obtain ⟨r, hr, hAr, hBr⟩ := hrec
      have hwf2 : ((r0 :: rest).map fun x => (x.day, x.col)).Nodup := hwf
      have hsnaps := foldl_pasteStep_snaps app.store b c
        (rest.foldl (fun m x => min m x.day) r0.day)
        (rest.foldl (fun m x => min m x.col) r0.col)
        (getDaysInMonth app.curYear app.curMonth) nC (r0 :: rest)
        (app, []) app.curYear app.curMonth rfl rfl hwf2 (fun x hx => rfl)
      set mD := rest.foldl (fun m x => min m x.day) r0.day with hmD
      set mC := rest.foldl (fun m x => min m x.col) r0.col with hmC
      set dim := getDaysInMonth app.curYear app.curMonth with hdim
      set snapList := (r0 :: rest).filterMap (fun x =>
        if ¬ (b + (x.day - mD) < 0 ∨ (b + (x.day - mD) > dim ∧ b + (x.day - mD) ≠ 0)) ∧
            ¬ (c + (x.col - mC) ≤ 0 ∨ c + (x.col - mC) ≥ nC)
        then some (CellKey.mk app.curYear app.curMonth (b + (x.day - mD)) (c + (x.col - mC)),
          snapshotOf app.store
            (CellKey.mk app.curYear app.curMonth (b + (x.day - mD)) (c + (x.col - mC))))
        else none) with hsnapList
      have hentry : (CellKey.mk app.curYear app.curMonth
            (b + (r.day - mD)) (c + (r.col - mC)),
          snapshotOf app.store (CellKey.mk app.curYear app.curMonth
            (b + (r.day - mD)) (c + (r.col - mC)))) ∈ snapList := by
        rw [hsnapList]
        exact List.mem_filterMap.mpr ⟨r, hr, by rw [if_pos ⟨hAr, hBr⟩]⟩
      have hres2 : ((r0 :: rest).foldl (pasteStep b c mD mC dim nC) (app, [])).2 =
          snapList := by
        rw [hsnaps]
        simp
      have hne : ((r0 :: rest).foldl (pasteStep b c mD mC dim nC) (app, [])).2 ≠ [] := by
        rw [hres2]
        intro hnil
        rw [hnil] at hentry
        exact List.not_mem_nil _ hentry
      have hpg : applyCellOp app (CellOp.pasteOp b c nC (r0 :: rest)) =
          saveUndoState ((r0 :: rest).foldl (pasteStep b c mD mC dim nC) (app, [])).1
            "paste" ((r0 :: rest).foldl (pasteStep b c mD mC dim nC) (app, [])).2 := by
        show pasteGrid app b c nC (r0 :: rest) = _
        simp only [pasteGrid]
        rw [if_pos hne]
      rw [hpg]
      set res := (r0 :: rest).foldl (pasteStep b c mD mC dim nC) (app, []) with hres
      set e : UndoEntry := ⟨"paste", res.2, res.1.curYear, res.1.curMonth⟩ with he
      have hstack : (saveUndoState res.1 "paste" res.2).undoStack =
          pushUndoEntry app.undoStack e := by
        show pushUndoEntry res.1.undoStack e = pushUndoEntry app.undoStack e
        rw [hres, foldl_pasteStep_stack]
      have hnotcut : ¬ (e.action = "cut" ∨ e.action = "delete") := by
        show ¬ (("paste" : String) = "cut" ∨ ("paste" : String) = "delete")
        decide
      rw [undoOp_store_pastelike _ app.undoStack e hstack hnotcut (Or.inl rfl)]
      refine foldl_restorePasteStep app.store e.cells _ ?hsnap ?hinv k
      case hsnap =>
        intro p hp
        have hp2 : p ∈ snapList := by
          rw [← hres2]
          exact hp
        rw [hsnapList] at hp2
        rcases List.mem_filterMap.mp hp2 with ⟨x, hx, hif⟩
        by_cases hcond : ¬ (b + (x.day - mD) < 0 ∨
            (b + (x.day - mD) > dim ∧ b + (x.day - mD) ≠ 0)) ∧
            ¬ (c + (x.col - mC) ≤ 0 ∨ c + (x.col - mC) ≥ nC)
        · rw [if_pos hcond] at hif
          rw [← Option.some.injEq _ _ |>.mp hif]
        · rw [if_neg hcond] at hif
          exact absurd hif (by simp)
      case hinv =>
        intro k1
        by_cases hex : ∃ x ∈ r0 :: rest,
            (¬ (b + (x.day - mD) < 0 ∨ (b + (x.day - mD) > dim ∧ b + (x.day - mD) ≠ 0)) ∧
              ¬ (c + (x.col - mC) ≤ 0 ∨ c + (x.col - mC) ≥ nC)) ∧
            CellKey.mk app.curYear app.curMonth (b + (x.day - mD)) (c + (x.col - mC)) = k1
        · right
          obtain ⟨x, hx, hcond, hkey⟩ := hex
          show (k1, snapshotOf app.store k1) ∈ res.2
          rw [hres, hres2, hsnapList]
          refine List.mem_filterMap.mpr ⟨x, hx, ?_⟩
          rw [if_pos hcond, hkey]
        · left
          show getTransactionData res.1.store k1 = _
          rw [hres]
          rw [foldl_pasteStep_frame b c mD mC dim nC (r0 :: rest) (app, [])
            app.curYear app.curMonth k1 rfl rfl ?hfr]
          case hfr =>
            intro x hx hkey
            by_cases hA : b + (x.day - mD) < 0 ∨
                (b + (x.day - mD) > dim ∧ b + (x.day - mD) ≠ 0)
            · exact Or.inl hA
            · by_cases hB : c + (x.col - mC) ≤ 0 ∨ c + (x.col - mC) ≥ nC
              · exact Or.inr (Or.inl hB)
              · exact absurd ⟨x, hx, ⟨hA, hB⟩, hkey⟩ hex

/-- Witness for C4's amended theorem: undoing a concrete one-cell cut
restores the cell. -/
theorem undo_restores_prior_state_witness :
    getTransactionData
        (undoOp (applyCellOp
          (AppState.mk [(CellKey.mk 2025 6 5 2, [("c", "3", "")])]
            (FileSystem.mk [] none none []) [] 2025 6)
          (CellOp.cutOp [(5, 2)]))).store (CellKey.mk 2025 6 5 2) =
      getTransactionData
        (AppState.mk [(CellKey.mk 2025 6 5 2, [("c", "3", "")])]
          (FileSystem.mk [] none none []) [] 2025 6).store (CellKey.mk 2025 6 5 2) :=
  undo_restores_prior_state
    (AppState.mk [(CellKey.mk 2025 6 5 2, [("c", "3", "")])]
      (FileSystem.mk [] none none []) [] 2025 6)
    (CellOp.cutOp [(5, 2)]) trivial (List.cons_ne_nil (5, 2) []) (CellKey.mk 2025 6 5 2)

end Ledger
